import Mathlib

/-!
Verification of the ParksCanadaWeather cleaning pipeline (`cleanning.py`).

The pandas program is shallowly embedded:
* a `DataFrame` becomes a `Table`: a list of column names plus a list of
  rows, each row holding a station id, a UTC timestamp (seconds, `Int`)
  and an association list from column name to an optional rational value
  (`none` models NaN/missing; exact `ℚ` models float arithmetic);
* `df[c] = e` / `df.loc[mask, c] = e` become `setCol` / `setColWhere`;
* `np.exp` is abstracted by a parameter `expFn : ℚ → ℚ` (a transcendental
  function has no exact rational image); the circular-statistics component,
  which is genuinely trigonometric, is embedded over `ℝ` instead;
* Python exceptions that the code catches are modelled by `Option`.
-/

namespace ParksWeather

/-! ### String helpers (substring / suffix tests used by the pipeline) -/

/-- `leadMatch p s` is true when `p` is an initial segment of `s`. -/
def leadMatch : List Char → List Char → Bool
  | [], _ => true
  | _ :: _, [] => false
  | a :: as, b :: bs => a == b && leadMatch as bs

/-- `subSearch p s` is true when `p` occurs contiguously inside `s`. -/
def subSearch (pat : List Char) : List Char → Bool
  | [] => pat.isEmpty
  | c :: rest => leadMatch pat (c :: rest) || subSearch pat rest

/-- Model of Python's `pat in s` substring test. -/
def strContains (s pat : String) : Bool := subSearch pat.data s.data

/-- Model of Python's `s.endswith(pat)` / `str.endswith`. -/
def strEndsWith (s pat : String) : Bool := leadMatch pat.data.reverse s.data.reverse

/-- Model of Python's `s.lower()`. -/
def strLower (s : String) : String := ⟨s.data.map Char.toLower⟩

/-! ### Data model -/

/-- One record of the observation table: station id, UTC timestamp in
seconds, and the named numeric cells (`none` = NaN). -/
structure Row where
  station : String
  time : Int
  cells : List (String × Option ℚ)
deriving DecidableEq

/-- Lookup of a named cell; an absent column reads as missing. -/
def getCellList : List (String × Option ℚ) → String → Option ℚ
  | [], _ => none
  | (n, v) :: rest, c => if n = c then v else getCellList rest c

/-- Column assignment on one row: overwrite the cell if the column exists,
append it otherwise (pandas `df[c] = e` semantics). -/
def setCellList : List (String × Option ℚ) → String → Option ℚ → List (String × Option ℚ)
  | [], c, v => [(c, v)]
  | (n, w) :: rest, c, v => if n = c then (n, v) :: rest else (n, w) :: setCellList rest c v

def Row.get (r : Row) (c : String) : Option ℚ := getCellList r.cells c

def Row.set (r : Row) (c : String) (v : Option ℚ) : Row :=
  { r with cells := setCellList r.cells c v }

/-- A dataframe: data column names (besides the structural `station` and
`Datetime_UTC` fields) in order, and the records. -/
structure Table where
  cols : List String
  rows : List Row
deriving DecidableEq

/-- Value of column `c` at row index `i` of a record list (missing when out
of range). -/
def valR (rows : List Row) (i : ℕ) (c : String) : Option ℚ :=
  match rows[i]? with
  | some r => r.get c
  | none => none

/-- Value of column `c` at row index `i` (missing when out of range). -/
def Table.val (t : Table) (i : ℕ) (c : String) : Option ℚ := valR t.rows i c

/-- Station of the record at index `i`. -/
def stationAt (rows : List Row) (i : ℕ) : Option String := (rows[i]?).map Row.station

/-- `df[c] = f(row)`: whole-column assignment. -/
def Table.setCol (t : Table) (c : String) (f : Row → Option ℚ) : Table :=
  { cols := if c ∈ t.cols then t.cols else t.cols ++ [c],
    rows := t.rows.map fun r => r.set c (f r) }

/-- `df.loc[mask, c] = f(row)`: masked column assignment. -/
def Table.setColWhere (t : Table) (p : Row → Bool) (c : String) (f : Row → Option ℚ) : Table :=
  { cols := if c ∈ t.cols then t.cols else t.cols ++ [c],
    rows := t.rows.map fun r => if p r then r.set c (f r) else r }

/-- Replace the records wholesale (in-place mutation of the frame). -/
def Table.mapRows (t : Table) (f : Row → Row) : Table :=
  { t with rows := t.rows.map f }

def Table.withRows (t : Table) (rs : List Row) : Table :=
  { t with rows := rs }

/-- `df.sort_values(['station', 'Datetime_UTC'])` comparison key. -/
def rowLE (a b : Row) : Bool :=
  if a.station = b.station then decide (a.time ≤ b.time) else decide (a.station < b.station)

def insertBy {α : Type} (le : α → α → Bool) (a : α) : List α → List α
  | [] => [a]
  | x :: xs => if le a x then a :: x :: xs else x :: insertBy le a xs

/-- Insertion sort (kept structural so that concrete tables evaluate inside
the kernel).  `sort_values` uses an unstable quicksort; any order among
records comparing equal is admissible, and this sort fixes one. -/
def sortBy {α : Type} (le : α → α → Bool) : List α → List α
  | [] => []
  | a :: as => insertBy le a (sortBy le as)

def sortRows (rs : List Row) : List Row := sortBy rowLE rs

def sortTable (t : Table) : Table := { t with rows := sortRows t.rows }

/-- `Series.unique()`: values in order of first appearance. -/
def dedupFirst {α : Type} [BEq α] : List α → List α
  | [] => []
  | a :: rest => a :: (dedupFirst rest).filter (fun x => !(x == a))

/-- `df['station'].unique()`. -/
def stationsOf (rows : List Row) : List String := dedupFirst (rows.map Row.station)

/-! ### Configuration (the `CONFIG` dictionary entries used by the core) -/

structure Config where
  /-- `INTERPOLATE_LIMIT_HOURS`, passed to `Series.interpolate(limit=...)`,
  where pandas reads it as a maximum count of consecutive NaNs. -/
  interpolateLimit : ℕ
  /-- `FORWARD_FILL_LIMIT_HOURS`, passed to `Series.ffill(limit=...)`. -/
  ffillLimit : ℕ
  /-- `BACKWARD_FILL_LIMIT_HOURS`, passed to `Series.bfill(limit=...)`. -/
  bfillLimit : ℕ
  /-- `IMPUTATION_THRESHOLD_PCT`. -/
  thresholdPct : ℚ
  tempMin : ℚ
  tempMax : ℚ
  rhMin : ℚ
  rhMax : ℚ
  dewMin : ℚ
  dewMax : ℚ
deriving DecidableEq

/-- The defaults from `CONFIG` in `cleanning.py`. -/
def defaultConfig : Config :=
  { interpolateLimit := 3, ffillLimit := 6, bfillLimit := 3, thresholdPct := 25,
    tempMin := -40, tempMax := 40, rhMin := 0, rhMax := 100, dewMin := -60, dewMax := 50 }

/-! ### Imputation engine (`impute_missing_values`) -/

/-- `df[col].isnull().sum()` over a record list. -/
def countMissing (col : String) (rows : List Row) : ℕ :=
  (rows.filter fun r => (r.get col).isNone).length

/-- Flag-column creation:
`df[flag_col] = 0; df.loc[df[col].isnull(), flag_col] = 1`. -/
def initFlags (col flagCol : String) (t : Table) : Table :=
  (t.setCol flagCol fun _ => some 0).setColWhere
    (fun r => (r.get col).isNone) flagCol (fun _ => some 1)

/-- Per-station missing percentage for one column (with the
`if station_total > 0 else 0` guard). -/
def stationMissingPct (t : Table) (col : String) (s : String) : ℚ :=
  let sub := t.rows.filter fun r => r.station == s
  if sub.length = 0 then 0 else ((countMissing col sub : ℚ) / (sub.length : ℚ)) * 100

/-- The `stations_to_impute` list: stations whose missing percentage for
this column is strictly below the threshold. -/
def stationsToImpute (cfg : Config) (t : Table) (col : String) : List String :=
  (stationsOf t.rows).filter fun s => decide (stationMissingPct t col s < cfg.thresholdPct)

/-! Tier 1: `Series.interpolate(method='time', limit=L, limit_direction='both')`.
pandas fills a NaN that has a valid value on both sides with the
time-weighted linear interpolation between its nearest valid neighbours,
and under `limit_direction='both'` fills leading (resp. trailing) NaNs by
clamping to the first (resp. last) valid value; `limit=L` restricts the
fill to NaNs at distance at most `L` *records* from a valid value in the
fill direction. -/

/-- Index of the nearest valid (non-NaN) entry strictly before `i`. -/
def prevValid (vs : List (Option ℚ)) : ℕ → Option ℕ
  | 0 => none
  | i + 1 => if ((vs[i]?).join).isSome then some i else prevValid vs i

/-- Index of the nearest valid (non-NaN) entry strictly after `i`. -/
def nextValid (vs : List (Option ℚ)) (i : ℕ) : Option ℕ :=
  match (vs.drop (i + 1)).findIdx? (fun v => v.isSome) with
  | some d => some (i + 1 + d)
  | none => none

/-- Read a value that is known to be valid (junk default otherwise). -/
def valAt (vs : List (Option ℚ)) (j : ℕ) : ℚ := ((vs[j]?).join).getD 0

def interpOne (L : ℕ) (ts : List Int) (vs : List (Option ℚ)) (i : ℕ) : Option ℚ :=
  match (vs[i]?).join with
  | some v => some v
  | none =>
    match prevValid vs i, nextValid vs i with
    | some j, some k =>
      if i - j ≤ L ∨ k - i ≤ L then
        let tj : ℚ := (((ts[j]?).getD 0 : ℤ) : ℚ)
        let tk : ℚ := (((ts[k]?).getD 0 : ℤ) : ℚ)
        let ti : ℚ := (((ts[i]?).getD 0 : ℤ) : ℚ)
        let vj := valAt vs j
        let vk := valAt vs k
        some (vj + (vk - vj) * ((ti - tj) / (tk - tj)))
      else none
    | none, some k => if k - i ≤ L then some (valAt vs k) else none
    | some j, none => if i - j ≤ L then some (valAt vs j) else none
    | none, none => none

/-- Time-based interpolation of one station's (timestamp, value) sequence. -/
def interpolateTime (L : ℕ) (seq : List (Int × Option ℚ)) : List (Option ℚ) :=
  (List.range seq.length).map (interpOne L (seq.map Prod.fst) (seq.map Prod.snd))

/-- `Series.ffill(limit=L)`: carry the last valid value over at most `L`
consecutive NaNs. -/
def ffillAux (L : ℕ) : Option (ℚ × ℕ) → List (Option ℚ) → List (Option ℚ)
  | _, [] => []
  | _, some v :: rest => some v :: ffillAux L (some (v, 0)) rest
  | none, none :: rest => none :: ffillAux L none rest
  | some (v, c), none :: rest =>
      (if c + 1 ≤ L then some v else none) :: ffillAux L (some (v, c + 1)) rest

def ffillL (L : ℕ) (vs : List (Option ℚ)) : List (Option ℚ) := ffillAux L none vs

/-- `Series.bfill(limit=L)`. -/
def bfillL (L : ℕ) (vs : List (Option ℚ)) : List (Option ℚ) := (ffillL L vs.reverse).reverse

/-- Write a transformed value sequence back into the rows of one station, in
order (`df.loc[mask, col] = station_df[col].values`). -/
def writeBack (col s : String) : List (Option ℚ) → List Row → List Row
  | _, [] => []
  | vs, r :: rs =>
    if r.station == s then
      match vs with
      | [] => r :: rs
      | v :: vs' => r.set col v :: writeBack col s vs' rs
    else r :: writeBack col s vs rs

/-- Extract one station's sub-series for a column, transform it, write it
back (the `station_df = df.loc[mask].copy(); ...; df.loc[mask, col] = ...`
pattern). -/
def fillStation (f : List (Int × Option ℚ) → List (Option ℚ)) (col s : String)
    (rows : List Row) : List Row :=
  let sub := rows.filter fun r => r.station == s
  writeBack col s (f (sub.map fun r => (r.time, r.get col))) rows

/-- Tier 1 over all `stations_to_impute`. -/
def tier1 (cfg : Config) (col : String) (stas : List String) (t : Table) : Table :=
  t.withRows (stas.foldl
    (fun rows s => fillStation (interpolateTime cfg.interpolateLimit) col s rows) t.rows)

/-- The Tier-2 allow-list of persistence variables. -/
def persistenceVars : List String := ["Temperature", "Dew", "Rh", "Wind Speed"]

/-- Tier 2: flag all still-missing values (all stations) as 2, then
forward-fill and backward-fill per impute station, only for the
persistence variables. -/
def tier2 (cfg : Config) (col flagCol : String) (stas : List String) (t : Table) : Table :=
  if col ∈ persistenceVars then
    let t' := t.setColWhere (fun r => (r.get col).isNone) flagCol (fun _ => some 2)
    t'.withRows (stas.foldl
      (fun rows s => fillStation
        (fun seq => bfillL cfg.bfillLimit (ffillL cfg.ffillLimit (seq.map Prod.snd)))
        col s rows) t'.rows)
  else t

/-- Magnus-formula relative humidity (`calculate_rh_from_temp_dew`).
The function's `try/except` absorbs arithmetic failures; a zero
denominator (the only such failure in exact arithmetic) yields `none`
instead of a value.  `np.clip(rh, 0, 100)` is `min (max rh 0) 100`. -/
def calculate_rh_from_temp_dew (expFn : ℚ → ℚ) (temp dew : ℚ) : Option ℚ :=
  let a : ℚ := 17.625
  let b : ℚ := 243.04
  if b + dew = 0 ∨ b + temp = 0 then none
  else
    let vaporPressureDew := expFn ((a * dew) / (b + dew))
    let vaporPressureTemp := expFn ((a * temp) / (b + temp))
    let rh := 100 * (vaporPressureDew / vaporPressureTemp)
    some (min (max rh 0) 100)

/-- Tier 3 for `Rain`: still-missing values at impute stations become 0
with flag 3. -/
def tier3Rain (col flagCol : String) (stas : List String) (t : Table) : Table :=
  stas.foldl (fun tb s =>
    tb.mapRows fun r =>
      if r.station == s && (r.get col).isNone then
        (r.set flagCol (some 3)).set col (some 0)
      else r) t

/-- Tier 3 for `Wind Gust Speed`: copy `Wind Speed` where present. -/
def tier3Gust (col flagCol : String) (stas : List String) (t : Table) : Table :=
  if "Wind Speed" ∈ t.cols then
    stas.foldl (fun tb s =>
      tb.mapRows fun r =>
        if r.station == s && (r.get col).isNone && (r.get "Wind Speed").isSome then
          (r.set flagCol (some 3)).set col (r.get "Wind Speed")
        else r) t
  else t

/-- The per-record update of tier 3 for `Rh`: where the record belongs to
the station being processed, `Rh` is missing and Temperature and Dew are
present, write flag 3 and the derived (possibly failed) Rh. -/
def rhStep (expFn : ℚ → ℚ) (col flagCol s : String) (r : Row) : Row :=
  if r.station == s && (r.get col).isNone
      && (r.get "Temperature").isSome && (r.get "Dew").isSome then
    (r.set flagCol (some 3)).set col
      (match r.get "Temperature", r.get "Dew" with
       | some tv, some dv => calculate_rh_from_temp_dew expFn tv dv
       | _, _ => none)
  else r

/-- Tier 3 for `Rh`: derive from `Temperature` and `Dew` where both are
present; a failed derivation (`none`) is assigned as a missing value. -/
def tier3Rh (expFn : ℚ → ℚ) (col flagCol : String) (stas : List String) (t : Table) : Table :=
  if "Temperature" ∈ t.cols ∧ "Dew" ∈ t.cols then
    stas.foldl (fun tb s => tb.mapRows (rhStep expFn col flagCol s)) t
  else t

/-- Tier 3 dispatch on the column name. -/
def tier3 (expFn : ℚ → ℚ) (col flagCol : String) (stas : List String) (t : Table) : Table :=
  if col = "Rain" then tier3Rain col flagCol stas t
  else if col = "Wind Gust Speed" then tier3Gust col flagCol stas t
  else if col = "Rh" then tier3Rh expFn col flagCol stas t
  else t

/-- `(df[col] < lo) | (df[col] > hi)` on one cell: NaN compares false. -/
def outOfBounds (lo hi : ℚ) (v : Option ℚ) : Bool :=
  match v with
  | some x => decide (x < lo) || decide (hi < x)
  | none => false

/-- Bounds validation.  Temperature: out-of-range values become NaN, flags
untouched.  Rh: the whole column is clipped into range (the source guards
the clip by `out_of_bounds.sum() > 0`, which is pointwise equivalent since
clipping an in-range value is the identity).  Dew: out-of-range values
become NaN and their flag is reset to 0. -/
def boundsStage (cfg : Config) (col flagCol : String) (t : Table) : Table :=
  if col = "Temperature" then
    t.mapRows fun r =>
      if outOfBounds cfg.tempMin cfg.tempMax (r.get col) then r.set col none else r
  else if col = "Rh" then
    t.mapRows fun r =>
      match r.get col with
      | some x => r.set col (some (min (max x cfg.rhMin) cfg.rhMax))
      | none => r
  else if col = "Dew" then
    t.mapRows fun r =>
      if outOfBounds cfg.dewMin cfg.dewMax (r.get col) then
        (r.set col none).set flagCol (some 0)
      else r
  else t

/-- The per-column body of the imputation loop.  A column with no missing
values is skipped entirely (`continue`), including its bounds check. -/
def processColumn (cfg : Config) (expFn : ℚ → ℚ) (t : Table) (col : String) : Table :=
  if countMissing col t.rows = 0 then t
  else
    let flagCol := col ++ "_imputed"
    let t1 := initFlags col flagCol t
    let stas := stationsToImpute cfg t1 col
    let t2 := tier1 cfg col stas t1
    let t3 := tier2 cfg col flagCol stas t2
    let t4 := tier3 expFn col flagCol stas t3
    boundsStage cfg col flagCol t4

/-- The data columns: everything except the `_imputed` flag columns (the
structural `Datetime_UTC` and `station` fields are not in `cols`).
Coercion `pd.to_numeric(errors='coerce')` is the identity here because
cells are already optional rationals. -/
def dataColumns (t : Table) : List String :=
  t.cols.filter fun c => !(strEndsWith c "_imputed")

/-- `impute_missing_values`: sort by (station, time), then process each
data column in order. -/
def impute_missing_values (cfg : Config) (expFn : ℚ → ℚ) (t : Table) : Table :=
  let t' := sortTable t
  (dataColumns t').foldl (processColumn cfg expFn) t'

/-! ### Circular statistics (`circular_mean_degrees`)

Embedded over `ℝ` (the only genuinely trigonometric component of the
pipeline).  `np.arctan2 sin cos` is `Complex.arg ⟨cos, sin⟩`, and
`np.deg2rad a` is `a * π / 180`.  The caller drops NaNs before the list is
formed, so the input models the post-`dropna` values. -/

noncomputable def circular_mean_degrees (angles : List ℝ) : Option ℝ :=
  if angles.length = 0 then none
  else
    let n : ℝ := angles.length
    let sinMean := ((angles.map fun a => Real.sin (a * (Real.pi / 180))).sum) / n
    let cosMean := ((angles.map fun a => Real.cos (a * (Real.pi / 180))).sum) / n
    let meanRad := Complex.arg (Complex.mk cosMean sinMean)
    let meanDeg := meanRad * (180 / Real.pi)
    some (if meanDeg < 0 then meanDeg + 360 else meanDeg)

/-! ### Aggregation (`create_hourly_aggregates`, `create_daily_aggregates`)

Each aggregator is modelled as `Table → Table × Table`: the first component
is the state of the *input* frame when the function returns (the source
assigns helper columns straight onto the frame it was handed), and the
second is the freshly built aggregate (for the daily aggregator an
`Option Table`, since `pd.concat` on an empty aggregation list raises).
The wind-direction aggregation runs `circular_mean_degrees` on floats; over
the rational table it is abstracted as a parameter
`circ : List ℚ → Option ℚ` receiving the group's present values. -/

/-- `df['Datetime_UTC'].dt.floor('h')` in seconds. -/
def hourFloor (tme : Int) : Int := 3600 * (tme.fdiv 3600)

/-- `df['Datetime_UTC'].dt.date` as the UTC day start in seconds. -/
def dayFloor (tme : Int) : Int := 86400 * (tme.fdiv 86400)

/-- `(df['Datetime_UTC'] - df['hour_label']).dt.total_seconds() / 60`. -/
def minutesFromHour (tme : Int) : ℚ := ((tme - hourFloor tme : ℤ) : ℚ) / 60

/-- The ±30-minute window filter, reading the helper column just as the
source reads `df['minutes_from_hour']` (NaN compares false). -/
def inHourWindow (r : Row) : Bool :=
  match r.get "minutes_from_hour" with
  | some m => decide (-30 ≤ m) && decide (m ≤ 30)
  | none => false

/-- Drop the `*_imputed` flag columns (`df.drop(columns=flag_cols)`; cell
payloads of dropped columns are unreachable once the name is gone). -/
def dropFlagCols (t : Table) : Table :=
  { cols := t.cols.filter fun c => !(strEndsWith c "_imputed"), rows := t.rows }

/-- Non-missing values of one column over a record list (`dropna` /
`skipna=True`). -/
def presentVals (col : String) (rs : List Row) : List ℚ :=
  rs.filterMap fun r => r.get col

def aggMax (vs : List ℚ) : Option ℚ :=
  match vs with
  | [] => none
  | v :: rest => some (rest.foldl max v)

def aggMin (vs : List ℚ) : Option ℚ :=
  match vs with
  | [] => none
  | v :: rest => some (rest.foldl min v)

/-- pandas `sum` with default `min_count=0`: an all-NaN group sums to 0. -/
def aggSum (vs : List ℚ) : ℚ := vs.sum

def aggMean (vs : List ℚ) : Option ℚ :=
  if vs.length = 0 then none else some (vs.sum / (vs.length : ℚ))

/-- Name-pattern dispatch shared by both aggregators. -/
def isGustCol (c : String) : Bool :=
  strContains (strLower c) "wind gust speed" || strContains (strLower c) "gust speed"

def isRainCol (c : String) : Bool :=
  strContains (strLower c) "rain" || strContains (strLower c) "precipitation"

def isDirectionCol (c : String) : Bool :=
  strContains (strLower c) "wind direction" || c == "Wind Direction"

/-- The hourly per-column aggregation function (`agg_dict`). -/
def hourlyAgg (circ : List ℚ → Option ℚ) (col : String) (vs : List ℚ) : Option ℚ :=
  if isGustCol col then aggMax vs
  else if isRainCol col then some (aggSum vs)
  else if isDirectionCol col then circ vs
  else aggMean vs

/-- `np.round` rounds half to even; `round(x, 2)` at two decimals. -/
def roundHalfEven (y : ℚ) : ℤ :=
  let f := ⌊y⌋
  let r := y - f
  if r < 1 / 2 then f
  else if 1 / 2 < r then f + 1
  else if f % 2 = 0 then f else f + 1

def roundQ2 (x : ℚ) : ℚ := ((roundHalfEven (x * 100) : ℤ) : ℚ) / 100

/-- The input frame after the hourly aggregator's in-place column
assignments (datetime/numeric coercions are the identity here). -/
def hourlyMutated (df0 : Table) : Table :=
  (df0.setCol "hour_label" fun r => some ((hourFloor r.time : ℤ) : ℚ)).setCol
    "minutes_from_hour" fun r => some (minutesFromHour r.time)

/-- The rows surviving the ±30-minute window filter. -/
def hourlyEligible (df0 : Table) : List Row :=
  (hourlyMutated df0).rows.filter inHourWindow

/-- `groupby(['station', 'hour_label'])` key; the `hour_label` column equals
`hourFloor` of the timestamp by construction. -/
def hourKey (r : Row) : String × Int := (r.station, hourFloor r.time)

def dayKey (r : Row) : String × Int := (r.station, dayFloor r.time)

/-- groupby sorts its keys: station (category order = sorted strings), then
time bucket. -/
def keyLE (a b : String × Int) : Bool :=
  if a.1 = b.1 then decide (a.2 ≤ b.2) else decide (a.1 < b.1)

/-- The member records of one hourly (station, bucket) group. -/
def bucketMembers (eligible : List Row) (s : String) (h : Int) : List Row :=
  eligible.filter fun r => hourKey r == (s, h)

def create_hourly_aggregates (circ : List ℚ → Option ℚ) (df0 : Table) : Table × Table :=
  let df := hourlyMutated df0
  let eligible := hourlyEligible df0
  let aggData := dropFlagCols { cols := df.cols, rows := eligible }
  let skipList : List String := ["station", "hour_label", "Datetime_UTC", "minutes_from_hour"]
  let aggCols := aggData.cols.filter fun c => !(skipList.contains c)
  let keys := sortBy keyLE (dedupFirst (eligible.map hourKey))
  let outRows := keys.map fun k =>
    let members := bucketMembers eligible k.1 k.2
    Row.mk k.1 k.2
      (aggCols.map fun c => (c, (hourlyAgg circ c (presentVals c members)).map roundQ2))
  (df, Table.mk aggCols outRows)

/-- The input frame after the daily aggregator's in-place `date_label`
assignment. -/
def dailyMutated (df0 : Table) : Table :=
  df0.setCol "date_label" fun r => some ((dayFloor r.time : ℤ) : ℚ)

/-- The daily aggregation list: (output column, source column, function),
three entries for a non-special column. -/
def dailyAggList (circ : List ℚ → Option ℚ) (cols : List String) :
    List (String × String × (List ℚ → Option ℚ)) :=
  cols.foldr (fun c acc =>
    if isGustCol c then (c, c, aggMax) :: acc
    else if isRainCol c then (c, c, fun vs => some (aggSum vs)) :: acc
    else if isDirectionCol c then (c, c, circ) :: acc
    else (c ++ "_min", c, aggMin) :: (c ++ "_max", c, aggMax) ::
      (c ++ "_mean", c, aggMean) :: acc) []

def create_daily_aggregates (circ : List ℚ → Option ℚ) (df0 : Table) :
    Table × Option Table :=
  let df := dailyMutated df0
  let aggData := dropFlagCols df
  let skipList : List String := ["station", "date_label", "Datetime_UTC"]
  let aggCols := aggData.cols.filter fun c => !(skipList.contains c)
  let aggs := dailyAggList circ aggCols
  if aggs.isEmpty then (df, none)
  else
    let keys := sortBy keyLE (dedupFirst (df.rows.map dayKey))
    let outRows := keys.map fun k =>
      let members := df.rows.filter fun r => dayKey r == k
      Row.mk k.1 k.2
        (aggs.map fun p => (p.1, (p.2.2 (presentVals p.2.1 members)).map roundQ2))
    (df, some (Table.mk (aggs.map Prod.fst) outRows))

/-! ### Data-quality report (`create_data_quality_csv`)

One `QualityRow` per (station, data column), then one `ALL_STATIONS`
roll-up row per data column.  The station branch and the all-stations
branch of the source are textually identical up to the record set, so both
are expressed through `qualityRowFor`.  Statistic field names carry a
`Stat` suffix (`meanStat` = the report's `mean`, etc.). -/

structure QualityRow where
  station : String
  column : String
  total_rows : ℕ
  missing_count : ℕ
  missing_percent : ℚ
  original_data_count : ℕ
  interpolated_count : ℕ
  forward_backward_filled_count : ℕ
  calculated_count : ℕ
  total_imputed_count : ℕ
  imputation_percent : ℚ
  meanStat : Option ℚ
  medianStat : Option ℚ
  minStat : Option ℚ
  maxStat : Option ℚ
  q1Stat : Option ℚ
  q3Stat : Option ℚ
  iqrStat : Option ℚ
deriving DecidableEq

/-- `(series == v).sum()` for a flag column (NaN compares false). -/
def countFlag (flagCol : String) (v : ℚ) (rs : List Row) : ℕ :=
  (rs.filter fun r => r.get flagCol == some v).length

def sortedVals (vs : List ℚ) : List ℚ := sortBy (fun a b => decide (a ≤ b)) vs

/-- pandas `Series.quantile(q)` with linear interpolation, on a sorted
non-empty list. -/
def quantileSorted (xs : List ℚ) (q : ℚ) : Option ℚ :=
  match xs with
  | [] => none
  | _ :: _ =>
    let h : ℚ := ((xs.length - 1 : ℕ) : ℚ) * q
    let lo := (⌊h⌋).toNat
    let frac := h - (⌊h⌋ : ℚ)
    let xlo := xs.getD lo 0
    let xhi := xs.getD (lo + 1) xlo
    some (xlo + frac * (xhi - xlo))

def qualityRowFor (allCols : List String) (rs : List Row) (stationName col : String) :
    QualityRow :=
  let total := rs.length
  let missing := countMissing col rs
  let missingPct : ℚ := if total > 0 then (missing : ℚ) / (total : ℚ) * 100 else 0
  let flagCol := col ++ "_imputed"
  let counts :=
    if flagCol ∈ allCols then
      (countFlag flagCol 0 rs, countFlag flagCol 1 rs, countFlag flagCol 2 rs,
        countFlag flagCol 3 rs)
    else (total - missing, 0, 0, 0)
  let totImp := counts.2.1 + counts.2.2.1 + counts.2.2.2
  let valid := presentVals col rs
  let sorted := sortedVals valid
  let q1 := quantileSorted sorted (1 / 4)
  let q3 := quantileSorted sorted (3 / 4)
  { station := stationName
    column := col
    total_rows := total
    missing_count := missing
    missing_percent := roundQ2 missingPct
    original_data_count := counts.1
    interpolated_count := counts.2.1
    forward_backward_filled_count := counts.2.2.1
    calculated_count := counts.2.2.2
    total_imputed_count := totImp
    imputation_percent := roundQ2 (if total > 0 then (totImp : ℚ) / (total : ℚ) * 100 else 0)
    meanStat := (aggMean valid).map roundQ2
    medianStat := (quantileSorted sorted (1 / 2)).map roundQ2
    minStat := sorted.head?.map roundQ2
    maxStat := sorted.getLast?.map roundQ2
    q1Stat := q1.map roundQ2
    q3Stat := q3.map roundQ2
    iqrStat := (match q1, q3 with
      | some a, some b => some (roundQ2 (b - a))
      | _, _ => none) }

def create_data_quality_csv (df : Table) : List QualityRow :=
  let dataCols := df.cols.filter fun c => !(strEndsWith c "_imputed")
  let stations := sortBy (fun a b : String => decide (a < b) || a == b)
    (dedupFirst (df.rows.map Row.station))
  let stationRows := stations.foldr (fun s acc =>
    (dataCols.map fun c =>
      qualityRowFor df.cols (df.rows.filter fun r => r.station == s) s c) ++ acc) []
  let summaryRows := dataCols.map fun c => qualityRowFor df.cols df.rows "ALL_STATIONS" c
  stationRows ++ summaryRows

/-! ### Basic lemmas about the embedding -/

theorem getCellList_set (cells : List (String × Option ℚ)) (c' : String) (v : Option ℚ)
    (c : String) :
    getCellList (setCellList cells c' v) c = if c' = c then v else getCellList cells c := by
  induction cells with
  | nil =>
    by_cases h : c' = c <;> simp [setCellList, getCellList, h]
  | cons p rest ih =>
    obtain ⟨n, w⟩ := p
    by_cases h1 : n = c'
    · subst h1
      by_cases h2 : n = c <;> simp [setCellList, getCellList, h2]
    · by_cases h2 : n = c
      · have hcc : ¬ c' = c := fun hcE => h1 (h2.trans hcE.symm)
        have hcc2 : ¬ c = c' := fun hcE => hcc hcE.symm
        simp [setCellList, getCellList, h1, h2, hcc, hcc2]
      · simp [setCellList, getCellList, h1, h2, ih]

theorem Row.get_set (r : Row) (c' : String) (v : Option ℚ) (c : String) :
    (r.set c' v).get c = if c' = c then v else r.get c :=
  getCellList_set r.cells c' v c

theorem Row.get_set_same (r : Row) (c : String) (v : Option ℚ) :
    (r.set c v).get c = v := by simp [Row.get_set]

theorem Row.get_set_other (r : Row) (c' : String) (v : Option ℚ) (c : String) (h : c' ≠ c) :
    (r.set c' v).get c = r.get c := by simp [Row.get_set, h]

theorem Row.station_set (r : Row) (c : String) (v : Option ℚ) :
    (r.set c v).station = r.station := rfl

theorem Row.time_set (r : Row) (c : String) (v : Option ℚ) :
    (r.set c v).time = r.time := rfl

theorem valR_of_get? {rows : List Row} {i : ℕ} {r : Row} (h : rows[i]? = some r)
    (c : String) : valR rows i c = r.get c := by
  unfold valR
  rw [h]

theorem valR_of_get?_none {rows : List Row} {i : ℕ} (h : rows[i]? = none)
    (c : String) : valR rows i c = none := by
  unfold valR
  rw [h]

theorem get?_map_rows (f : Row → Row) (rows : List Row) (i : ℕ) :
    (rows.map f)[i]? = (rows[i]?).map f := List.getElem?_map f rows i

theorem valR_map_of_get? {rows : List Row} {i : ℕ} {r : Row} (f : Row → Row)
    (h : rows[i]? = some r) (c : String) :
    valR (rows.map f) i c = (f r).get c := by
  unfold valR
  rw [get?_map_rows, h]
  rfl

theorem stationAt_map (f : Row → Row) (hf : ∀ r, (f r).station = r.station)
    (rows : List Row) (i : ℕ) : stationAt (rows.map f) i = stationAt rows i := by
  unfold stationAt
  rw [get?_map_rows]
  cases rows[i]? <;> simp [hf]

/-! ### `writeBack` lemmas -/

theorem writeBack_length (col s : String) : ∀ (vs : List (Option ℚ)) (rows : List Row),
    (writeBack col s vs rows).length = rows.length := by
  intro vs rows
  induction rows generalizing vs with
  | nil => simp [writeBack]
  | cons r rs ih =>
    by_cases h : r.station == s
    · cases vs <;> simp [writeBack, h, ih]
    · simp [writeBack, h, ih]

theorem writeBack_get?_station (col s : String) :
    ∀ (vs : List (Option ℚ)) (rows : List Row) (i : ℕ),
    stationAt (writeBack col s vs rows) i = stationAt rows i := by
  intro vs rows
  induction rows generalizing vs with
  | nil => intro i; simp [writeBack]
  | cons r rs ih =>
    intro i
    by_cases h : r.station == s
    · cases vs with
      | nil => simp [writeBack, h]
      | cons v vs' =>
        cases i with
        | zero => simp [writeBack, h, stationAt, Row.station_set]
        | succ n => simp [writeBack, h, stationAt] at ih ⊢; exact ih vs' n
    · cases i with
      | zero => simp [writeBack, h, stationAt]
      | succ n => simp [writeBack, h, stationAt] at ih ⊢; exact ih vs n

theorem writeBack_val_other (col s c : String) (hc : c ≠ col) :
    ∀ (vs : List (Option ℚ)) (rows : List Row) (i : ℕ),
    valR (writeBack col s vs rows) i c = valR rows i c := by
  intro vs rows
  induction rows generalizing vs with
  | nil => intro i; simp [writeBack]
  | cons r rs ih =>
    intro i
    by_cases h : r.station == s
    · cases vs with
      | nil => simp [writeBack, h]
      | cons v vs' =>
        cases i with
        | zero =>
          simp [writeBack, h, valR, Row.get_set_other r col v c (fun hh => hc hh.symm)]
        | succ n => simpa [writeBack, h, valR] using ih vs' n
    · cases i with
      | zero => simp [writeBack, h, valR]
      | succ n => simpa [writeBack, h, valR] using ih vs n

/-- A record whose station differs from the written station is untouched. -/
theorem writeBack_val_skip (col s : String) :
    ∀ (vs : List (Option ℚ)) (rows : List Row) (i : ℕ) (r : Row),
    rows[i]? = some r → r.station ≠ s →
    valR (writeBack col s vs rows) i col = r.get col := by
  intro vs rows
  induction rows generalizing vs with
  | nil => intro i r h; simp at h
  | cons r0 rs ih =>
    intro i r hr hs
    by_cases h : r0.station == s
    · cases vs with
      | nil => simp [writeBack, h, valR, hr]
      | cons v vs' =>
        cases i with
        | zero =>
          simp at hr
          subst hr
          exact absurd (by simpa using h) hs
        | succ n =>
          simp at hr
          simpa [writeBack, h, valR] using ih vs' n r hr hs
    · cases i with
      | zero => simp at hr; subst hr; simp [writeBack, h, valR]
      | succ n => simp at hr; simpa [writeBack, h, valR] using ih vs n r hr hs

/-! ### Present-value preservation (`presKeep`) -/

/-- `presKeep xs ys`: `ys` has the same length as `xs` and keeps every
present value of `xs` unchanged (it may only fill missing slots). -/
def presKeep (xs ys : List (Option ℚ)) : Prop :=
  ys.length = xs.length ∧
    ∀ (j : ℕ) (v : ℚ), xs[j]? = some (some v) → ys[j]? = some (some v)

theorem presKeep_cons {x y : Option ℚ} {xs ys : List (Option ℚ)}
    (h : presKeep (x :: xs) (y :: ys)) : presKeep xs ys := by
  obtain ⟨hl, hp⟩ := h
  refine ⟨by simpa using hl, fun j v hj => ?_⟩
  have := hp (j + 1) v (by simpa using hj)
  simpa using this

theorem presKeep_head {x y : Option ℚ} {xs ys : List (Option ℚ)}
    (h : presKeep (x :: xs) (y :: ys)) {v : ℚ} (hx : x = some v) : y = some v := by
  have := h.2 0 v (by simp [hx])
  simpa using this

theorem presKeep_nil_ne {x : Option ℚ} {xs : List (Option ℚ)}
    (h : presKeep (x :: xs) []) : False := by
  simpa using h.1

/-- Transport of present values through `writeBack`: if the new sequence
keeps the present values of the station's current sub-series, then every
present cell keeps its value. -/
theorem writeBack_pres (col s : String) :
    ∀ (vs : List (Option ℚ)) (rows : List Row) (i : ℕ) (r : Row) (v : ℚ),
    presKeep ((rows.filter fun r => r.station == s).map fun r => r.get col) vs →
    rows[i]? = some r → r.get col = some v →
    valR (writeBack col s vs rows) i col = some v := by
  intro vs rows
  induction rows generalizing vs with
  | nil => intro i r v _ h; simp at h
  | cons r0 rs ih =>
    intro i r v hkeep hr hv
    by_cases h : r0.station == s
    · have hfil : (List.filter (fun r => r.station == s) (r0 :: rs)) =
        r0 :: List.filter (fun r => r.station == s) rs := by simp [List.filter, h]
      rw [hfil] at hkeep
      cases vs with
      | nil => exact absurd hkeep (by intro hk; exact presKeep_nil_ne (by simpa using hk))
      | cons w vs' =>
        cases i with
        | zero =>
          simp at hr
          subst hr
          have : w = some v := presKeep_head (by simpa using hkeep) hv
          simp [writeBack, h, valR, this, Row.get_set_same]
        | succ n =>
          simp at hr
          have hk' : presKeep ((List.filter (fun r => r.station == s) rs).map
              fun r => r.get col) vs' := presKeep_cons (by simpa using hkeep)
          simpa [writeBack, h, valR] using ih vs' n r v hk' hr hv
    · have hfil : (List.filter (fun r => r.station == s) (r0 :: rs)) =
        List.filter (fun r => r.station == s) rs := by simp [List.filter, h]
      rw [hfil] at hkeep
      cases i with
      | zero => simp at hr; subst hr; simp [writeBack, h, valR, hv]
      | succ n => simp at hr; simpa [writeBack, h, valR] using ih vs n r v hkeep hr hv

theorem presKeep_trans {xs ys zs : List (Option ℚ)} (h1 : presKeep xs ys)
    (h2 : presKeep ys zs) : presKeep xs zs :=
  ⟨h2.1.trans h1.1, fun j v hj => h2.2 j v (h1.2 j v hj)⟩

theorem presKeep_reverse {xs ys : List (Option ℚ)} (h : presKeep xs ys) :
    presKeep xs.reverse ys.reverse := by
  refine ⟨by simp [h.1], fun j v hj => ?_⟩
  have hjlen : j < xs.length := by
    by_contra hge
    rw [List.getElem?_eq_none (by simpa using hge)] at hj
    exact Option.noConfusion hj
  rw [List.getElem?_reverse (by simpa using hjlen)] at hj
  have := h.2 (xs.length - 1 - j) v hj
  rw [List.getElem?_reverse (by simp [h.1]; omega)]
  rw [h.1]
  exact this

theorem interpolateTime_length (L : ℕ) (seq : List (Int × Option ℚ)) :
    (interpolateTime L seq).length = seq.length := by
  simp [interpolateTime]

theorem interpOne_of_some {vs : List (Option ℚ)} {i : ℕ} {v : ℚ}
    (h : vs[i]? = some (some v)) (L : ℕ) (ts : List Int) :
    interpOne L ts vs i = some v := by
  unfold interpOne
  rw [h]
  rfl

theorem interpolateTime_pres (L : ℕ) (seq : List (Int × Option ℚ)) :
    presKeep (seq.map Prod.snd) (interpolateTime L seq) := by
  refine ⟨by simp [interpolateTime_length], fun j v hj => ?_⟩
  have hjlen : j < seq.length := by
    by_contra hge
    rw [List.getElem?_eq_none (by simpa using hge)] at hj
    exact Option.noConfusion hj
  unfold interpolateTime
  rw [List.getElem?_map, List.getElem?_range hjlen]
  simp [interpOne_of_some hj]

theorem ffillAux_length (L : ℕ) : ∀ (carry : Option (ℚ × ℕ)) (vs : List (Option ℚ)),
    (ffillAux L carry vs).length = vs.length := by
  intro carry vs
  induction vs generalizing carry with
  | nil => simp [ffillAux]
  | cons x rest ih =>
    cases x with
    | some w => simp [ffillAux, ih]
    | none =>
      cases carry with
      | none => simp [ffillAux, ih]
      | some p => obtain ⟨w, cnt⟩ := p; simp [ffillAux, ih]

theorem ffillAux_pres (L : ℕ) : ∀ (carry : Option (ℚ × ℕ)) (vs : List (Option ℚ))
    (j : ℕ) (v : ℚ), vs[j]? = some (some v) → (ffillAux L carry vs)[j]? = some (some v) := by
  intro carry vs
  induction vs generalizing carry with
  | nil => intro j v h; simp at h
  | cons x rest ih =>
    intro j v h
    cases x with
    | some w =>
      cases j with
      | zero => simpa [ffillAux] using h
      | succ n => simp at h; simpa [ffillAux] using ih (some (w, 0)) n v h
    | none =>
      cases j with
      | zero => simp at h
      | succ n =>
        simp at h
        cases carry with
        | none => simpa [ffillAux] using ih none n v h
        | some p =>
          obtain ⟨w, cnt⟩ := p
          simpa [ffillAux] using ih (some (w, cnt + 1)) n v h

theorem ffillL_pres (L : ℕ) (vs : List (Option ℚ)) : presKeep vs (ffillL L vs) :=
  ⟨ffillAux_length L none vs, fun j v h => ffillAux_pres L none vs j v h⟩

theorem bfillL_pres (L : ℕ) (vs : List (Option ℚ)) : presKeep vs (bfillL L vs) := by
  have h1 : presKeep vs.reverse (ffillL L vs.reverse) := ffillL_pres L vs.reverse
  have h2 := presKeep_reverse h1
  rw [List.reverse_reverse] at h2
  exact h2

theorem tier2fill_pres (F B : ℕ) (vs : List (Option ℚ)) :
    presKeep vs (bfillL B (ffillL F vs)) :=
  presKeep_trans (ffillL_pres F vs) (bfillL_pres B (ffillL F vs))

/-! ### Which columns each stage writes -/

theorem valR_map_get (rows : List Row) (f : Row → Row) (i : ℕ) (c : String) :
    valR (rows.map f) i c =
      match rows[i]? with
      | some r => (f r).get c
      | none => none := by
  unfold valR
  rw [List.getElem?_map]
  cases rows[i]? <;> rfl

theorem setCol_val_other (t : Table) (c' : String) (f : Row → Option ℚ) (c : String)
    (hc : c' ≠ c) (i : ℕ) : (t.setCol c' f).val i c = t.val i c := by
  show valR (t.rows.map _) i c = valR t.rows i c
  rw [valR_map_get]
  unfold valR
  cases t.rows[i]? <;> simp [Row.get_set_other _ _ _ _ hc]

theorem setColWhere_val_other (t : Table) (p : Row → Bool) (c' : String) (f : Row → Option ℚ)
    (c : String) (hc : c' ≠ c) (i : ℕ) : (t.setColWhere p c' f).val i c = t.val i c := by
  show valR (t.rows.map _) i c = valR t.rows i c
  rw [valR_map_get]
  unfold valR
  cases t.rows[i]? with
  | none => rfl
  | some r => by_cases hp : p r <;> simp [hp, Row.get_set_other _ _ _ _ hc]

theorem setCol_val_same {t : Table} {i : ℕ} {r : Row} (h : t.rows[i]? = some r)
    (c' : String) (f : Row → Option ℚ) : (t.setCol c' f).val i c' = f r := by
  show valR (t.rows.map _) i c' = f r
  rw [valR_map_get, h]
  simp [Row.get_set_same]

theorem setColWhere_val_same {t : Table} {i : ℕ} {r : Row} (h : t.rows[i]? = some r)
    (p : Row → Bool) (c' : String) (f : Row → Option ℚ) :
    (t.setColWhere p c' f).val i c' = if p r then f r else r.get c' := by
  show valR (t.rows.map _) i c' = _
  rw [valR_map_get, h]
  by_cases hp : p r <;> simp [hp, Row.get_set_same]

theorem setCol_station (t : Table) (c' : String) (f : Row → Option ℚ) (i : ℕ) :
    stationAt (t.setCol c' f).rows i = stationAt t.rows i := by
  exact stationAt_map (fun r => r.set c' (f r)) (fun _ => rfl) t.rows i

theorem setColWhere_station (t : Table) (p : Row → Bool) (c' : String) (f : Row → Option ℚ)
    (i : ℕ) : stationAt (t.setColWhere p c' f).rows i = stationAt t.rows i :=
  stationAt_map _ (fun r => by by_cases hp : p r <;> simp [hp, Row.station_set]) t.rows i

/-! ### Generic lemmas for the per-station fill folds (tiers 1 and 2) -/

theorem foldlFill_val_other (f : List (Int × Option ℚ) → List (Option ℚ)) (col c : String)
    (hc : c ≠ col) : ∀ (stas : List String) (rows : List Row) (i : ℕ),
    valR (stas.foldl (fun rows s => fillStation f col s rows) rows) i c = valR rows i c := by
  intro stas
  induction stas with
  | nil => intro rows i; rfl
  | cons s rest ih =>
    intro rows i
    rw [List.foldl_cons, ih]
    exact writeBack_val_other col s c hc _ rows i

theorem foldlFill_station (f : List (Int × Option ℚ) → List (Option ℚ)) (col : String) :
    ∀ (stas : List String) (rows : List Row) (i : ℕ),
    stationAt (stas.foldl (fun rows s => fillStation f col s rows) rows) i
      = stationAt rows i := by
  intro stas
  induction stas with
  | nil => intro rows i; rfl
  | cons s rest ih =>
    intro rows i
    rw [List.foldl_cons, ih]
    exact writeBack_get?_station col s _ rows i

theorem fillStation_pres {f : List (Int × Option ℚ) → List (Option ℚ)}
    (hf : ∀ seq, presKeep (seq.map Prod.snd) (f seq)) (col s : String)
    (rows : List Row) (i : ℕ) (v : ℚ) (hv : valR rows i col = some v) :
    valR (fillStation f col s rows) i col = some v := by
  rcases hr : rows[i]? with _ | r
  · rw [valR_of_get?_none hr] at hv; exact Option.noConfusion hv
  · rw [valR_of_get? hr] at hv
    unfold fillStation
    refine writeBack_pres col s _ rows i r v ?_ hr hv
    have := hf ((rows.filter fun r => r.station == s).map fun r => (r.time, r.get col))
    simpa [List.map_map, Function.comp] using this

theorem foldlFill_pres (f : List (Int × Option ℚ) → List (Option ℚ)) (col : String)
    (hf : ∀ seq, presKeep (seq.map Prod.snd) (f seq)) :
    ∀ (stas : List String) (rows : List Row) (i : ℕ) (v : ℚ),
    valR rows i col = some v →
    valR (stas.foldl (fun rows s => fillStation f col s rows) rows) i col = some v := by
  intro stas
  induction stas with
  | nil => intro rows i v hv; exact hv
  | cons s rest ih =>
    intro rows i v hv
    rw [List.foldl_cons]
    exact ih _ i v (fillStation_pres hf col s rows i v hv)

theorem foldlFill_skip (f : List (Int × Option ℚ) → List (Option ℚ)) (col : String) :
    ∀ (stas : List String) (rows : List Row) (i : ℕ) (st : String),
    stationAt rows i = some st → st ∉ stas →
    valR (stas.foldl (fun rows s => fillStation f col s rows) rows) i col
      = valR rows i col := by
  intro stas
  induction stas with
  | nil => intro rows i st _ _; rfl
  | cons s rest ih =>
    intro rows i st hst hmem
    rcases hr : rows[i]? with _ | r
    · simp [stationAt, hr] at hst
    · have hstation : r.station = st := by simpa [stationAt, hr] using hst
      have hne : r.station ≠ s := by
        rw [hstation]; exact fun hE => hmem (hE ▸ List.mem_cons_self s rest)
      rw [List.foldl_cons]
      have hstep : valR (fillStation f col s rows) i col = valR rows i col := by
        unfold fillStation
        rw [writeBack_val_skip col s _ rows i r hr hne, valR_of_get? hr]
      rw [← hstep]
      refine ih _ i st ?_ (fun hmem' => hmem (List.mem_cons_of_mem s hmem'))
      unfold fillStation
      rw [writeBack_get?_station, hst]

/-! ### Generic lemmas for the per-station row-map folds (tier 3) -/

theorem foldlMap_val (G : String → Row → Row) (c : String)
    (hG : ∀ s r, (G s r).get c = r.get c) :
    ∀ (stas : List String) (t : Table) (i : ℕ),
    (stas.foldl (fun tb s => tb.mapRows (G s)) t).val i c = t.val i c := by
  intro stas
  induction stas with
  | nil => intro t i; rfl
  | cons s rest ih =>
    intro t i
    rw [List.foldl_cons, ih]
    show valR (t.rows.map _) i c = valR t.rows i c
    rw [valR_map_get]
    unfold valR
    cases t.rows[i]? <;> simp [hG]

theorem foldlMap_station (G : String → Row → Row)
    (hG : ∀ s r, (G s r).station = r.station) :
    ∀ (stas : List String) (t : Table) (i : ℕ),
    stationAt (stas.foldl (fun tb s => tb.mapRows (G s)) t).rows i
      = stationAt t.rows i := by
  intro stas
  induction stas with
  | nil => intro t i; rfl
  | cons s rest ih =>
    intro t i
    rw [List.foldl_cons, ih]
    exact stationAt_map _ (hG s) t.rows i

theorem foldlMap_skip (G : String → Row → Row) (c : String)
    (hGs : ∀ s r, (G s r).station = r.station)
    (hGskip : ∀ s r, r.station ≠ s → G s r = r) :
    ∀ (stas : List String) (t : Table) (i : ℕ) (st : String),
    stationAt t.rows i = some st → st ∉ stas →
    (stas.foldl (fun tb s => tb.mapRows (G s)) t).val i c = t.val i c := by
  intro stas
  induction stas with
  | nil => intro t i st _ _; rfl
  | cons s rest ih =>
    intro t i st hst hmem
    rcases hr : t.rows[i]? with _ | r
    · simp [stationAt, hr] at hst
    · have hstation : r.station = st := by simpa [stationAt, hr] using hst
      have hne : r.station ≠ s := by
        rw [hstation]; exact fun hE => hmem (hE ▸ List.mem_cons_self s rest)
      rw [List.foldl_cons]
      have hstep : (t.mapRows (G s)).val i c = t.val i c := by
        show valR (t.rows.map (G s)) i c = valR t.rows i c
        rw [valR_map_of_get? _ hr, valR_of_get? hr, hGskip s r hne]
      rw [← hstep]
      refine ih _ i st ?_ (fun hmem' => hmem (List.mem_cons_of_mem s hmem'))
      show stationAt (t.rows.map _) i = some st
      rw [stationAt_map _ (hGs s), hst]

/-! ### Facts about the `_imputed` suffix -/

theorem leadMatch_append (x y : List Char) : leadMatch x (x ++ y) = true := by
  induction x with
  | nil => rfl
  | cons a as ih => simp [leadMatch, ih]

theorem strEndsWith_append (c s : String) : strEndsWith (c ++ s) s = true := by
  unfold strEndsWith
  rw [String.data_append, List.reverse_append]
  exact leadMatch_append _ _

/-- A name carrying the `_imputed` suffix differs from any name without it. -/
theorem flag_ne_of_dataCol {c : String} (hc : strEndsWith c "_imputed" = false)
    (c' : String) : c' ++ "_imputed" ≠ c := by
  intro h
  rw [← h, strEndsWith_append] at hc
  exact Bool.noConfusion hc

theorem self_ne_flag (c : String) : c ≠ c ++ "_imputed" := by
  intro h
  have hlen := congrArg (fun s : String => s.data.length) h
  have h8 : ("_imputed" : String).data.length = 8 := rfl
  simp [String.data_append, List.length_append, h8] at hlen

theorem flag_inj {a b : String} (h : a ++ "_imputed" = b ++ "_imputed") : a = b := by
  have hd : a.data ++ ("_imputed" : String).data = b.data ++ ("_imputed" : String).data := by
    rw [← String.data_append, ← String.data_append, h]
  have hab : a.data = b.data := by
    have hrev := congrArg List.reverse hd
    rw [List.reverse_append, List.reverse_append] at hrev
    have := List.append_cancel_left hrev
    simpa using congrArg List.reverse this
  cases a
  cases b
  exact congrArg String.mk hab

/-! ### Stage-level frame lemmas -/

theorem initFlags_val_other (col fc : String) (t : Table) (c : String) (hfc : c ≠ fc)
    (i : ℕ) : (initFlags col fc t).val i c = t.val i c := by
  unfold initFlags
  rw [setColWhere_val_other _ _ _ _ _ (Ne.symm hfc), setCol_val_other _ _ _ _ (Ne.symm hfc)]

theorem initFlags_station (col fc : String) (t : Table) (i : ℕ) :
    stationAt (initFlags col fc t).rows i = stationAt t.rows i := by
  unfold initFlags
  rw [setColWhere_station, setCol_station]

/-- The flag column right after creation: 1 on missing cells, 0 elsewhere. -/
theorem initFlags_flag {t : Table} (col fc : String) (hne : fc ≠ col) {i : ℕ} {r : Row}
    (h : t.rows[i]? = some r) :
    (initFlags col fc t).val i fc = some (if (r.get col).isNone then 1 else 0) := by
  unfold initFlags
  have h2 : (t.setCol fc fun _ => some 0).rows[i]? = some (r.set fc (some 0)) := by
    show (t.rows.map _)[i]? = _
    rw [List.getElem?_map, h]
    rfl
  rw [setColWhere_val_same h2]
  rw [Row.get_set_other _ _ _ _ hne]
  by_cases hm : (r.get col).isNone
  · simp [hm]
  · simp [hm, Row.get_set_same]

theorem initFlags_flag_none {t : Table} (col fc : String) {i : ℕ}
    (h : t.rows[i]? = none) : (initFlags col fc t).val i fc = none := by
  unfold initFlags
  show valR (_ : Table).rows i fc = none
  apply valR_of_get?_none
  show ((t.rows.map _).map _)[i]? = none
  rw [List.getElem?_map, List.getElem?_map, h]
  rfl

theorem tier1_val_other (cfg : Config) (col : String) (stas : List String) (t : Table)
    (c : String) (hc : c ≠ col) (i : ℕ) : (tier1 cfg col stas t).val i c = t.val i c :=
  foldlFill_val_other _ col c hc stas t.rows i

theorem tier1_station (cfg : Config) (col : String) (stas : List String) (t : Table)
    (i : ℕ) : stationAt (tier1 cfg col stas t).rows i = stationAt t.rows i :=
  foldlFill_station _ col stas t.rows i

theorem tier1_pres (cfg : Config) (col : String) (stas : List String) (t : Table)
    (i : ℕ) (v : ℚ) (hv : t.val i col = some v) :
    (tier1 cfg col stas t).val i col = some v :=
  foldlFill_pres _ col (fun seq => interpolateTime_pres cfg.interpolateLimit seq)
    stas t.rows i v hv

theorem tier1_skip (cfg : Config) (col : String) (stas : List String) (t : Table)
    (i : ℕ) (st : String) (hst : stationAt t.rows i = some st) (hmem : st ∉ stas) :
    (tier1 cfg col stas t).val i col = t.val i col :=
  foldlFill_skip _ col stas t.rows i st hst hmem

theorem tier2_val_other (cfg : Config) (col fc : String) (stas : List String) (t : Table)
    (c : String) (hc : c ≠ col) (hfc : c ≠ fc) (i : ℕ) :
    (tier2 cfg col fc stas t).val i c = t.val i c := by
  unfold tier2
  split
  · rw [show ∀ (u : Table) rs, (u.withRows rs).val i c = valR rs i c from fun _ _ => rfl]
    rw [foldlFill_val_other _ col c hc]
    exact setColWhere_val_other _ _ _ _ _ (Ne.symm hfc) i
  · rfl

theorem tier2_station (cfg : Config) (col fc : String) (stas : List String) (t : Table)
    (i : ℕ) : stationAt (tier2 cfg col fc stas t).rows i = stationAt t.rows i := by
  unfold tier2
  split
  · rw [show ∀ (u : Table) rs, stationAt (u.withRows rs).rows i = stationAt rs i from
      fun _ _ => rfl]
    rw [foldlFill_station]
    exact setColWhere_station _ _ _ _ i
  · rfl

theorem tier2_pres (cfg : Config) (col fc : String) (hfc : col ≠ fc) (stas : List String)
    (t : Table) (i : ℕ) (v : ℚ) (hv : t.val i col = some v) :
    (tier2 cfg col fc stas t).val i col = some v := by
  unfold tier2
  split
  · rw [show ∀ (u : Table) rs, (u.withRows rs).val i col = valR rs i col from fun _ _ => rfl]
    refine foldlFill_pres _ col (fun seq => ?_) stas _ i v ?_
    · exact tier2fill_pres cfg.ffillLimit cfg.bfillLimit (seq.map Prod.snd)
    · rw [show ∀ (u : Table), valR u.rows i col = u.val i col from fun _ => rfl]
      rw [setColWhere_val_other _ _ _ _ _ (Ne.symm hfc) i]
      exact hv
  · exact hv

theorem tier2_skip (cfg : Config) (col fc : String) (hfc : col ≠ fc) (stas : List String)
    (t : Table) (i : ℕ) (st : String) (hst : stationAt t.rows i = some st)
    (hmem : st ∉ stas) : (tier2 cfg col fc stas t).val i col = t.val i col := by
  unfold tier2
  split
  · rw [show ∀ (u : Table) rs, (u.withRows rs).val i col = valR rs i col from fun _ _ => rfl]
    rw [foldlFill_skip _ col stas _ i st (by rw [setColWhere_station]; exact hst) hmem]
    rw [show ∀ (u : Table), valR u.rows i col = u.val i col from fun _ => rfl]
    exact setColWhere_val_other _ _ _ _ _ (Ne.symm hfc) i
  · rfl

theorem tier3Rain_val_other (col fc : String) (stas : List String) (t : Table) (c : String)
    (hcol : c ≠ col) (hfc : c ≠ fc) (i : ℕ) :
    (tier3Rain col fc stas t).val i c = t.val i c := by
  unfold tier3Rain
  apply foldlMap_val
  intro s r
  by_cases hcond : (r.station == s && (r.get col).isNone) = true
  · simp [hcond, Row.get_set_other _ _ _ _ (Ne.symm hcol), Row.get_set_other _ _ _ _ (Ne.symm hfc)]
  · simp [hcond]

theorem tier3Gust_val_other (col fc : String) (stas : List String) (t : Table) (c : String)
    (hcol : c ≠ col) (hfc : c ≠ fc) (i : ℕ) :
    (tier3Gust col fc stas t).val i c = t.val i c := by
  unfold tier3Gust
  split
  · apply foldlMap_val
    intro s r
    by_cases hcond :
      (r.station == s && (r.get col).isNone && (r.get "Wind Speed").isSome) = true
    · simp [hcond, Row.get_set_other _ _ _ _ (Ne.symm hcol),
        Row.get_set_other _ _ _ _ (Ne.symm hfc)]
    · simp [hcond]
  · rfl

theorem tier3Rh_val_other (e : ℚ → ℚ) (col fc : String) (stas : List String) (t : Table)
    (c : String) (hcol : c ≠ col) (hfc : c ≠ fc) (i : ℕ) :
    (tier3Rh e col fc stas t).val i c = t.val i c := by
  unfold tier3Rh
  split
  · apply foldlMap_val
    intro s r
    unfold rhStep
    by_cases hcond : (r.station == s && (r.get col).isNone
        && (r.get "Temperature").isSome && (r.get "Dew").isSome) = true
    · simp [hcond, Row.get_set_other _ _ _ _ (Ne.symm hcol),
        Row.get_set_other _ _ _ _ (Ne.symm hfc)]
    · simp [hcond]
  · rfl

theorem tier3_val_other (e : ℚ → ℚ) (col fc : String) (stas : List String) (t : Table)
    (c : String) (hcol : c ≠ col) (hfc : c ≠ fc) (i : ℕ) :
    (tier3 e col fc stas t).val i c = t.val i c := by
  unfold tier3
  split
  · exact tier3Rain_val_other col fc stas t c hcol hfc i
  split
  · exact tier3Gust_val_other col fc stas t c hcol hfc i
  split
  · exact tier3Rh_val_other e col fc stas t c hcol hfc i
  · rfl

theorem tier3Rain_station (col fc : String) (stas : List String) (t : Table) (i : ℕ) :
    stationAt (tier3Rain col fc stas t).rows i = stationAt t.rows i := by
  unfold tier3Rain
  apply foldlMap_station
  intro s r
  by_cases hcond : (r.station == s && (r.get col).isNone) = true <;>
    simp [hcond, Row.station_set]

theorem tier3Gust_station (col fc : String) (stas : List String) (t : Table) (i : ℕ) :
    stationAt (tier3Gust col fc stas t).rows i = stationAt t.rows i := by
  unfold tier3Gust
  split
  · apply foldlMap_station
    intro s r
    by_cases hcond :
      (r.station == s && (r.get col).isNone && (r.get "Wind Speed").isSome) = true <;>
      simp [hcond, Row.station_set]
  · rfl

theorem tier3Rh_station (e : ℚ → ℚ) (col fc : String) (stas : List String) (t : Table)
    (i : ℕ) : stationAt (tier3Rh e col fc stas t).rows i = stationAt t.rows i := by
  unfold tier3Rh
  split
  · apply foldlMap_station
    intro s r
    unfold rhStep
    by_cases hcond : (r.station == s && (r.get col).isNone
        && (r.get "Temperature").isSome && (r.get "Dew").isSome) = true <;>
      simp [hcond, Row.station_set]
  · rfl

theorem tier3_station (e : ℚ → ℚ) (col fc : String) (stas : List String) (t : Table)
    (i : ℕ) : stationAt (tier3 e col fc stas t).rows i = stationAt t.rows i := by
  unfold tier3
  split
  · exact tier3Rain_station col fc stas t i
  split
  · exact tier3Gust_station col fc stas t i
  split
  · exact tier3Rh_station e col fc stas t i
  · rfl

theorem boundsStage_val_other (cfg : Config) (col fc : String) (t : Table) (c : String)
    (hcol : c ≠ col) (hfc : c ≠ fc) (i : ℕ) :
    (boundsStage cfg col fc t).val i c = t.val i c := by
  unfold boundsStage
  split
  · show valR (t.rows.map _) i c = valR t.rows i c
    rw [valR_map_get]
    unfold valR
    cases t.rows[i]? with
    | none => rfl
    | some r =>
      by_cases hcond : outOfBounds cfg.tempMin cfg.tempMax (r.get col) = true <;>
        simp [hcond, Row.get_set_other _ _ _ _ (Ne.symm hcol)]
  split
  · show valR (t.rows.map _) i c = valR t.rows i c
    rw [valR_map_get]
    unfold valR
    cases t.rows[i]? with
    | none => rfl
    | some r =>
      cases hget : r.get col <;> simp [hget, Row.get_set_other _ _ _ _ (Ne.symm hcol)]
  split
  · show valR (t.rows.map _) i c = valR t.rows i c
    rw [valR_map_get]
    unfold valR
    cases t.rows[i]? with
    | none => rfl
    | some r =>
      by_cases hcond : outOfBounds cfg.dewMin cfg.dewMax (r.get col) = true <;>
        simp [hcond, Row.get_set_other _ _ _ _ (Ne.symm hcol),
          Row.get_set_other _ _ _ _ (Ne.symm hfc)]
  · rfl

theorem boundsStage_station (cfg : Config) (col fc : String) (t : Table) (i : ℕ) :
    stationAt (boundsStage cfg col fc t).rows i = stationAt t.rows i := by
  unfold boundsStage
  split
  · refine stationAt_map _ (fun r => ?_) t.rows i
    by_cases hcond : outOfBounds cfg.tempMin cfg.tempMax (r.get col) = true <;>
      simp [hcond, Row.station_set]
  split
  · refine stationAt_map _ (fun r => ?_) t.rows i
    cases hget : r.get col <;> simp [hget, Row.station_set]
  split
  · refine stationAt_map _ (fun r => ?_) t.rows i
    by_cases hcond : outOfBounds cfg.dewMin cfg.dewMax (r.get col) = true <;>
      simp [hcond, Row.station_set]
  · rfl

/-! ### Per-column frame lemma: `processColumn col'` only writes `col'`
and `col' ++ "_imputed"` -/

theorem processColumn_val_other (cfg : Config) (e : ℚ → ℚ) (t : Table) (col c : String)
    (h1 : c ≠ col) (h2 : c ≠ col ++ "_imputed") (i : ℕ) :
    (processColumn cfg e t col).val i c = t.val i c := by
  unfold processColumn
  split
  · rfl
  · rw [boundsStage_val_other _ _ _ _ _ h1 h2, tier3_val_other _ _ _ _ _ _ h1 h2,
      tier2_val_other _ _ _ _ _ _ h1 h2, tier1_val_other _ _ _ _ _ h1,
      initFlags_val_other _ _ _ _ h2]

theorem processColumn_station (cfg : Config) (e : ℚ → ℚ) (t : Table) (col : String)
    (i : ℕ) : stationAt (processColumn cfg e t col).rows i = stationAt t.rows i := by
  unfold processColumn
  split
  · rfl
  · rw [boundsStage_station, tier3_station, tier2_station, tier1_station, initFlags_station]

theorem foldlCols_val_other (cfg : Config) (e : ℚ → ℚ) (c : String) :
    ∀ (l : List String) (t : Table),
    (∀ c' ∈ l, c ≠ c' ∧ c ≠ c' ++ "_imputed") → ∀ i,
    (l.foldl (processColumn cfg e) t).val i c = t.val i c := by
  intro l
  induction l with
  | nil => intro t _ i; rfl
  | cons c' rest ih =>
    intro t hl i
    rw [List.foldl_cons]
    rw [ih _ (fun x hx => hl x (List.mem_cons_of_mem c' hx)) i]
    have := hl c' (List.mem_cons_self c' rest)
    exact processColumn_val_other cfg e t c' c this.1 this.2 i

theorem foldlCols_station (cfg : Config) (e : ℚ → ℚ) :
    ∀ (l : List String) (t : Table) (i : ℕ),
    stationAt ((l.foldl (processColumn cfg e) t)).rows i = stationAt t.rows i := by
  intro l
  induction l with
  | nil => intro t i; rfl
  | cons c' rest ih =>
    intro t i
    rw [List.foldl_cons, ih, processColumn_station]

/-! ### The provenance invariant: a non-zero flag marks an originally
missing value -/

/-- Present values of column `c` in `base` are still present. -/
def presColR (base rows : List Row) (c : String) : Prop :=
  ∀ (i : ℕ) (v : ℚ), valR base i c = some v → valR rows i c = some v

/-- A non-zero flag implies the value was missing in `base`. -/
def flagInvR (base rows : List Row) (c fc : String) : Prop :=
  ∀ (i : ℕ) (v : ℚ), valR rows i fc = some v → v ≠ 0 → valR base i c = none

theorem valR_map_of_get?_none {rows : List Row} {i : ℕ} {f : Row → Row}
    (h : rows[i]? = none) {c : String} : valR (rows.map f) i c = none := by
  apply valR_of_get?_none
  rw [List.getElem?_map, h]
  rfl

theorem inv2_map_step {base rows : List Row} {c fc : String} (G : Row → Row)
    (hP1 : ∀ r, (G r).get c = r.get c ∨ r.get c = none)
    (hP2 : ∀ r, (G r).get fc = r.get fc ∨ r.get c = none)
    (h1 : presColR base rows c) (h2 : flagInvR base rows c fc) :
    presColR base (rows.map G) c ∧ flagInvR base (rows.map G) c fc := by
  constructor
  · intro i v hv
    have hcur := h1 i v hv
    rcases hr : rows[i]? with _ | r
    · rw [valR_of_get?_none hr] at hcur; exact Option.noConfusion hcur
    · rw [valR_of_get? hr] at hcur
      rw [valR_map_of_get? G hr]
      rcases hP1 r with h | h
      · rw [h]; exact hcur
      · rw [h] at hcur; exact Option.noConfusion hcur
  · intro i v hv hvne
    rcases hr : rows[i]? with _ | r
    · rw [valR_map_of_get?_none] at hv
      · exact Option.noConfusion hv
      · exact hr
    · rw [valR_map_of_get? G hr] at hv
      rcases hP2 r with h | h
      · rw [h] at hv
        exact h2 i v (by rw [valR_of_get? hr]; exact hv) hvne
      · rcases hb : valR base i c with _ | w
        · rfl
        · have := h1 i w hb
          rw [valR_of_get? hr] at this
          rw [h] at this
          exact Option.noConfusion this

theorem inv2_foldl_map {base : List Row} {c fc : String} (G : String → Row → Row)
    (hP1 : ∀ s r, (G s r).get c = r.get c ∨ r.get c = none)
    (hP2 : ∀ s r, (G s r).get fc = r.get fc ∨ r.get c = none) :
    ∀ (stas : List String) (rows : List Row),
    presColR base rows c → flagInvR base rows c fc →
    presColR base (stas.foldl (fun rs s => rs.map (G s)) rows) c ∧
      flagInvR base (stas.foldl (fun rs s => rs.map (G s)) rows) c fc := by
  intro stas
  induction stas with
  | nil => intro rows h1 h2; exact ⟨h1, h2⟩
  | cons s rest ih =>
    intro rows h1 h2
    rw [List.foldl_cons]
    have step := inv2_map_step (G s) (hP1 s) (hP2 s) h1 h2
    exact ih _ step.1 step.2

/-- Rows of a table-level `foldl` of `mapRows` steps. -/
theorem foldl_mapRows_rows (G : String → Row → Row) :
    ∀ (stas : List String) (t : Table),
    (stas.foldl (fun tb s => tb.mapRows (G s)) t).rows
      = stas.foldl (fun rs s => rs.map (G s)) t.rows := by
  intro stas
  induction stas with
  | nil => intro t; rfl
  | cons s rest ih =>
    intro t
    rw [List.foldl_cons, List.foldl_cons, ih]
    rfl

theorem inv2_fill_step {base rows : List Row} {c fc : String} (hfc : fc ≠ c)
    {f : List (Int × Option ℚ) → List (Option ℚ)}
    (hf : ∀ seq, presKeep (seq.map Prod.snd) (f seq)) (s : String)
    (h1 : presColR base rows c) (h2 : flagInvR base rows c fc) :
    presColR base (fillStation f c s rows) c ∧
      flagInvR base (fillStation f c s rows) c fc := by
  constructor
  · intro i v hv
    exact fillStation_pres hf c s rows i v (h1 i v hv)
  · intro i v hv hvne
    refine h2 i v ?_ hvne
    rw [← hv]
    show valR rows i fc = valR (writeBack c s _ rows) i fc
    exact (writeBack_val_other c s fc hfc _ rows i).symm

theorem inv2_foldl_fill {base : List Row} {c fc : String} (hfc : fc ≠ c)
    {f : List (Int × Option ℚ) → List (Option ℚ)}
    (hf : ∀ seq, presKeep (seq.map Prod.snd) (f seq)) :
    ∀ (stas : List String) (rows : List Row),
    presColR base rows c → flagInvR base rows c fc →
    presColR base (stas.foldl (fun rs s => fillStation f c s rs) rows) c ∧
      flagInvR base (stas.foldl (fun rs s => fillStation f c s rs) rows) c fc := by
  intro stas
  induction stas with
  | nil => intro rows h1 h2; exact ⟨h1, h2⟩
  | cons s rest ih =>
    intro rows h1 h2
    rw [List.foldl_cons]
    have step := inv2_fill_step hfc hf s h1 h2
    exact ih _ step.1 step.2

/-- The flag-2 pass of tier 2 marks only currently (hence originally)
missing cells. -/
theorem inv2_setFlag2 {base rows : List Row} {c fc : String}
    (h1 : presColR base rows c) (h2 : flagInvR base rows c fc) :
    presColR base (rows.map fun r => if (r.get c).isNone then r.set fc (some 2) else r) c ∧
      flagInvR base (rows.map fun r => if (r.get c).isNone then r.set fc (some 2) else r)
        c fc := by
  refine inv2_map_step _ (fun r => ?_) (fun r => ?_) h1 h2
  · by_cases hm : (r.get c).isNone = true
    · right; simpa [Option.isNone_iff_eq_none] using hm
    · left; simp [hm]
  · by_cases hm : (r.get c).isNone = true
    · right; simpa [Option.isNone_iff_eq_none] using hm
    · left; simp [hm]

theorem flagInv_map_of_flag {base rows : List Row} {c fc : String} (G : Row → Row)
    (hP : ∀ r, (G r).get fc = r.get fc ∨ (G r).get fc = some 0)
    (h2 : flagInvR base rows c fc) : flagInvR base (rows.map G) c fc := by
  intro i v hv hvne
  rcases hr : rows[i]? with _ | r
  · rw [valR_map_of_get?_none hr] at hv
    exact Option.noConfusion hv
  · rw [valR_map_of_get? G hr] at hv
    rcases hP r with h | h
    · rw [h] at hv
      exact h2 i v (by rw [valR_of_get? hr]; exact hv) hvne
    · rw [h] at hv
      exact absurd (Option.some_injective ℚ hv).symm hvne

theorem tier1_inv {base : List Row} (cfg : Config) (col fc : String) (hfc : fc ≠ col)
    (stas : List String) (u : Table)
    (h1 : presColR base u.rows col) (h2 : flagInvR base u.rows col fc) :
    presColR base (tier1 cfg col stas u).rows col ∧
      flagInvR base (tier1 cfg col stas u).rows col fc :=
  inv2_foldl_fill hfc (fun seq => interpolateTime_pres cfg.interpolateLimit seq)
    stas u.rows h1 h2

theorem tier2_inv {base : List Row} (cfg : Config) (col fc : String) (hfc : fc ≠ col)
    (stas : List String) (u : Table)
    (h1 : presColR base u.rows col) (h2 : flagInvR base u.rows col fc) :
    presColR base (tier2 cfg col fc stas u).rows col ∧
      flagInvR base (tier2 cfg col fc stas u).rows col fc := by
  unfold tier2
  split
  · have hset := inv2_setFlag2 h1 h2
    exact inv2_foldl_fill hfc
      (fun seq => tier2fill_pres cfg.ffillLimit cfg.bfillLimit (seq.map Prod.snd))
      stas _ hset.1 hset.2
  · exact ⟨h1, h2⟩

theorem tier3_inv {base : List Row} (e : ℚ → ℚ) (col fc : String)
    (stas : List String) (u : Table)
    (h1 : presColR base u.rows col) (h2 : flagInvR base u.rows col fc) :
    presColR base (tier3 e col fc stas u).rows col ∧
      flagInvR base (tier3 e col fc stas u).rows col fc := by
  unfold tier3
  split
  · unfold tier3Rain
    rw [foldl_mapRows_rows]
    refine inv2_foldl_map _ (fun s r => ?_) (fun s r => ?_) stas u.rows h1 h2
    · by_cases hcond : (r.station == s && (r.get col).isNone) = true
      · right
        rcases Bool.and_eq_true .. |>.mp hcond with ⟨_, hm⟩
        simpa [Option.isNone_iff_eq_none] using hm
      · left; simp [hcond]
    · by_cases hcond : (r.station == s && (r.get col).isNone) = true
      · right
        rcases Bool.and_eq_true .. |>.mp hcond with ⟨_, hm⟩
        simpa [Option.isNone_iff_eq_none] using hm
      · left; simp [hcond]
  split
  · unfold tier3Gust
    split
    · rw [foldl_mapRows_rows]
      refine inv2_foldl_map _ (fun s r => ?_) (fun s r => ?_) stas u.rows h1 h2
      · by_cases hcond :
          (r.station == s && (r.get col).isNone && (r.get "Wind Speed").isSome) = true
        · right
          rcases Bool.and_eq_true .. |>.mp hcond with ⟨hc2, _⟩
          rcases Bool.and_eq_true .. |>.mp hc2 with ⟨_, hm⟩
          simpa [Option.isNone_iff_eq_none] using hm
        · left; simp [hcond]
      · by_cases hcond :
          (r.station == s && (r.get col).isNone && (r.get "Wind Speed").isSome) = true
        · right
          rcases Bool.and_eq_true .. |>.mp hcond with ⟨hc2, _⟩
          rcases Bool.and_eq_true .. |>.mp hc2 with ⟨_, hm⟩
          simpa [Option.isNone_iff_eq_none] using hm
        · left; simp [hcond]
    · exact ⟨h1, h2⟩
  split
  · unfold tier3Rh
    split
    · rw [foldl_mapRows_rows]
      refine inv2_foldl_map _ (fun s r => ?_) (fun s r => ?_) stas u.rows h1 h2
      · unfold rhStep
        by_cases hcond : (r.station == s && (r.get col).isNone
            && (r.get "Temperature").isSome && (r.get "Dew").isSome) = true
        · right
          rcases Bool.and_eq_true .. |>.mp hcond with ⟨hc2, _⟩
          rcases Bool.and_eq_true .. |>.mp hc2 with ⟨hc3, _⟩
          rcases Bool.and_eq_true .. |>.mp hc3 with ⟨_, hm⟩
          simpa [Option.isNone_iff_eq_none] using hm
        · left; simp [hcond]
      · unfold rhStep
        by_cases hcond : (r.station == s && (r.get col).isNone
            && (r.get "Temperature").isSome && (r.get "Dew").isSome) = true
        · right
          rcases Bool.and_eq_true .. |>.mp hcond with ⟨hc2, _⟩
          rcases Bool.and_eq_true .. |>.mp hc2 with ⟨hc3, _⟩
          rcases Bool.and_eq_true .. |>.mp hc3 with ⟨_, hm⟩
          simpa [Option.isNone_iff_eq_none] using hm
        · left; simp [hcond]
    · exact ⟨h1, h2⟩
  · exact ⟨h1, h2⟩

theorem boundsStage_flagInv {base : List Row} (cfg : Config) (col fc : String)
    (hfc : fc ≠ col) {c : String} (u : Table)
    (h2 : flagInvR base u.rows c fc) :
    flagInvR base (boundsStage cfg col fc u).rows c fc := by
  unfold boundsStage
  split
  · refine flagInv_map_of_flag _ (fun r => ?_) h2
    left
    by_cases hcond : outOfBounds cfg.tempMin cfg.tempMax (r.get col) = true <;>
      simp [hcond, Row.get_set_other _ _ _ _ (Ne.symm hfc)]
  split
  · refine flagInv_map_of_flag _ (fun r => ?_) h2
    left
    cases hget : r.get col <;> simp [hget, Row.get_set_other _ _ _ _ (Ne.symm hfc)]
  split
  · refine flagInv_map_of_flag _ (fun r => ?_) h2
    by_cases hcond : outOfBounds cfg.dewMin cfg.dewMax (r.get col) = true
    · right; simp [hcond, Row.get_set_same]
    · left; simp [hcond]
  · exact h2

/-- Inside one column's processing, a non-zero flag marks a cell that was
missing when the column's processing started. -/
theorem processColumn_inv (cfg : Config) (e : ℚ → ℚ) (t : Table) (col : String)
    (hbase : ∀ i, valR t.rows i (col ++ "_imputed") = none) :
    flagInvR t.rows (processColumn cfg e t col).rows col (col ++ "_imputed") := by
  have hfc_ne : col ++ "_imputed" ≠ col := Ne.symm (self_ne_flag col)
  unfold processColumn
  split
  · intro i v hv _
    rw [hbase i] at hv
    exact Option.noConfusion hv
  · have h1p : presColR t.rows (initFlags col (col ++ "_imputed") t).rows col := by
      intro i v hv
      show (initFlags col (col ++ "_imputed") t).val i col = some v
      rw [initFlags_val_other col _ t col (self_ne_flag col)]
      exact hv
    have h1f : flagInvR t.rows (initFlags col (col ++ "_imputed") t).rows col
        (col ++ "_imputed") := by
      intro i v hv hvne
      rcases hr : t.rows[i]? with _ | r
      · rw [show valR (initFlags col (col ++ "_imputed") t).rows i (col ++ "_imputed") =
            (initFlags col (col ++ "_imputed") t).val i (col ++ "_imputed") from rfl,
          initFlags_flag_none col _ hr] at hv
        exact Option.noConfusion hv
      · rw [show valR (initFlags col (col ++ "_imputed") t).rows i (col ++ "_imputed") =
            (initFlags col (col ++ "_imputed") t).val i (col ++ "_imputed") from rfl,
          initFlags_flag col _ hfc_ne hr] at hv
        by_cases hm : (r.get col).isNone
        · rw [valR_of_get? hr]
          simpa [Option.isNone_iff_eq_none] using hm
        · rw [if_neg hm] at hv
          exact absurd (Option.some_injective ℚ hv).symm hvne
    have h2 := tier1_inv cfg col (col ++ "_imputed") hfc_ne
      (stationsToImpute cfg (initFlags col (col ++ "_imputed") t) col)
      (initFlags col (col ++ "_imputed") t) h1p h1f
    have h3 := tier2_inv cfg col (col ++ "_imputed") hfc_ne
      (stationsToImpute cfg (initFlags col (col ++ "_imputed") t) col)
      (tier1 cfg col (stationsToImpute cfg (initFlags col (col ++ "_imputed") t) col)
        (initFlags col (col ++ "_imputed") t)) h2.1 h2.2
    have h4 := tier3_inv e col (col ++ "_imputed")
      (stationsToImpute cfg (initFlags col (col ++ "_imputed") t) col)
      (tier2 cfg col (col ++ "_imputed")
        (stationsToImpute cfg (initFlags col (col ++ "_imputed") t) col)
        (tier1 cfg col (stationsToImpute cfg (initFlags col (col ++ "_imputed") t) col)
          (initFlags col (col ++ "_imputed") t))) h3.1 h3.2
    exact boundsStage_flagInv cfg col (col ++ "_imputed") hfc_ne
      (tier3 e col (col ++ "_imputed")
        (stationsToImpute cfg (initFlags col (col ++ "_imputed") t) col)
        (tier2 cfg col (col ++ "_imputed")
          (stationsToImpute cfg (initFlags col (col ++ "_imputed") t) col)
          (tier1 cfg col (stationsToImpute cfg (initFlags col (col ++ "_imputed") t) col)
            (initFlags col (col ++ "_imputed") t)))) h4.2

/-- Full-engine flag invariant: a non-zero provenance tag for a data
column `c` marks a record whose `c`-value was missing in the (sorted)
input.  Preconditions: column names are unique (guaranteed upstream by
`df.loc[:, ~df.columns.duplicated()]`), `c` is not itself a flag column,
and the input carries no pre-existing `c_imputed` cells. -/
theorem impute_flag_sound (cfg : Config) (e : ℚ → ℚ) (df : Table) (c : String)
    (hnd : df.cols.Nodup) (hsuf : strEndsWith c "_imputed" = false)
    (hpre : ∀ i, (sortTable df).val i (c ++ "_imputed") = none)
    (i : ℕ) (v : ℚ)
    (hflag : (impute_missing_values cfg e df).val i (c ++ "_imputed") = some v)
    (hvne : v ≠ 0) : (sortTable df).val i c = none := by
  by_cases hc : c ∈ dataColumns (sortTable df)
  · obtain ⟨l1, l2, hsplit⟩ := List.append_of_mem hc
    have hndData : (dataColumns (sortTable df)).Nodup := by
      have : (sortTable df).cols = df.cols := rfl
      exact List.Nodup.filter _ (this ▸ hnd)
    rw [hsplit] at hndData
    have hc_not_l1 : c ∉ l1 := by
      rcases List.nodup_append.mp hndData with ⟨_, _, hdisj⟩
      intro hmem
      exact hdisj hmem (List.mem_cons_self c l2)
    have hc_not_l2 : c ∉ l2 := by
      rcases List.nodup_append.mp hndData with ⟨_, hnd2, _⟩
      exact (List.nodup_cons.mp hnd2).1
    have hsuffix_of_mem : ∀ x ∈ dataColumns (sortTable df),
        strEndsWith x "_imputed" = false := by
      intro x hx
      have := List.of_mem_filter hx
      simpa using this
    -- frame for the processed columns before c
    have hframe1 : ∀ x ∈ l1, (c ++ "_imputed") ≠ x ∧ c ≠ x := by
      intro x hx
      have hxmem : x ∈ dataColumns (sortTable df) := by
        rw [hsplit]; exact List.mem_append_left _ hx
      constructor
      · exact flag_ne_of_dataCol (hsuffix_of_mem x hxmem) c
      · intro hE; exact hc_not_l1 (hE ▸ hx)
    have hframe2 : ∀ x ∈ l2, (c ++ "_imputed") ≠ x ∧ c ≠ x := by
      intro x hx
      have hxmem : x ∈ dataColumns (sortTable df) := by
        rw [hsplit]; exact List.mem_append_right _ (List.mem_cons_of_mem c hx)
      constructor
      · exact flag_ne_of_dataCol (hsuffix_of_mem x hxmem) c
      · intro hE; exact hc_not_l2 (hE ▸ hx)
    -- the state reached just before c is processed
    have himpute : impute_missing_values cfg e df =
        (c :: l2).foldl (processColumn cfg e)
          (l1.foldl (processColumn cfg e) (sortTable df)) := by
      show (dataColumns (sortTable df)).foldl (processColumn cfg e) (sortTable df) = _
      rw [hsplit, List.foldl_append]
    have hframe_cflag_l1 : ∀ x ∈ l1, (c ++ "_imputed") ≠ x ∧
        (c ++ "_imputed") ≠ x ++ "_imputed" := by
      intro x hx
      refine ⟨(hframe1 x hx).1, fun hE => (hframe1 x hx).2 (flag_inj hE)⟩
    have hframe_c_l1 : ∀ x ∈ l1, c ≠ x ∧ c ≠ x ++ "_imputed" := by
      intro x hx
      exact ⟨(hframe1 x hx).2, fun hE => flag_ne_of_dataCol hsuf x hE.symm⟩
    have hframe_cflag_l2 : ∀ x ∈ l2, (c ++ "_imputed") ≠ x ∧
        (c ++ "_imputed") ≠ x ++ "_imputed" := by
      intro x hx
      refine ⟨(hframe2 x hx).1, fun hE => (hframe2 x hx).2 (flag_inj hE)⟩
    -- transport the flag reading backwards over l2
    rw [himpute, List.foldl_cons] at hflag
    rw [foldlCols_val_other cfg e (c ++ "_imputed") l2 _ hframe_cflag_l2 i] at hflag
    -- the base table for processColumn c
    have hbase : ∀ j, valR (l1.foldl (processColumn cfg e) (sortTable df)).rows j
        (c ++ "_imputed") = none := by
      intro j
      have := foldlCols_val_other cfg e (c ++ "_imputed") l1 (sortTable df)
        hframe_cflag_l1 j
      rw [show valR (l1.foldl (processColumn cfg e) (sortTable df)).rows j
        (c ++ "_imputed") = (l1.foldl (processColumn cfg e) (sortTable df)).val j
        (c ++ "_imputed") from rfl, this]
      exact hpre j
    have hinv := processColumn_inv cfg e (l1.foldl (processColumn cfg e) (sortTable df))
      c hbase i v hflag hvne
    -- transport the missing value back over l1
    have := foldlCols_val_other cfg e c l1 (sortTable df) hframe_c_l1 i
    rw [show valR (l1.foldl (processColumn cfg e) (sortTable df)).rows i c =
      (l1.foldl (processColumn cfg e) (sortTable df)).val i c from rfl, this] at hinv
    exact hinv
  · -- `c` is never processed: its flag column stays absent
    have hframe : ∀ x ∈ dataColumns (sortTable df), (c ++ "_imputed") ≠ x ∧
        (c ++ "_imputed") ≠ x ++ "_imputed" := by
      intro x hx
      have hxsuf : strEndsWith x "_imputed" = false := by
        have := List.of_mem_filter hx
        simpa using this
      refine ⟨flag_ne_of_dataCol hxsuf c, fun hE => ?_⟩
      have : c = x := flag_inj hE
      exact hc (this ▸ hx)
    have : (impute_missing_values cfg e df).val i (c ++ "_imputed")
        = (sortTable df).val i (c ++ "_imputed") :=
      foldlCols_val_other cfg e (c ++ "_imputed") (dataColumns (sortTable df))
        (sortTable df) hframe i
    rw [this, hpre i] at hflag
    exact Option.noConfusion hflag

/-! ### Concrete tables used by the closed theorems -/

/-- Station A, hourly Temperature records; one missing value at 4 h from
both valid neighbours; 1 of 9 values missing (11% < 25%), so the station
is imputed. -/
def gapTable : Table :=
  Table.mk ["Temperature"]
    [Row.mk "A" 0 [("Temperature", some 0)],
     Row.mk "A" 14400 [("Temperature", none)],
     Row.mk "A" 28800 [("Temperature", some 4)],
     Row.mk "A" 32400 [("Temperature", some 5)],
     Row.mk "A" 36000 [("Temperature", some 5)],
     Row.mk "A" 39600 [("Temperature", some 5)],
     Row.mk "A" 43200 [("Temperature", some 5)],
     Row.mk "A" 46800 [("Temperature", some 5)],
     Row.mk "A" 50400 [("Temperature", some 5)]]

/-- Station A with 1 of 2 Wind Direction values missing (50% ≥ 25%), so
the station is skipped for that variable. -/
def wdTable : Table :=
  Table.mk ["Wind Direction"]
    [Row.mk "A" 0 [("Wind Direction", some 10)],
     Row.mk "A" 3600 [("Wind Direction", none)]]

/-- C1: the claim says Tier 1 fills a missing value exactly when its
time-gap to both surrounding known values is within 3 hours ("a bound on
elapsed time, not on record count").  In the code the configured
`INTERPOLATE_LIMIT_HOURS = 3` is passed as pandas `interpolate(limit=3)`,
a bound on consecutive missing *records*: here the single missing record
whose valid neighbours are 4 hours away on each side is nevertheless
filled (with the time-weighted value 2) and tagged `Interpolated`,
although both surrounding gaps exceed the 3-hour limit. -/
theorem tier1_fills_beyond_time_limit :
    (impute_missing_values defaultConfig (fun q => q) gapTable).val 1 "Temperature"
        = some 2 ∧
      (impute_missing_values defaultConfig (fun q => q) gapTable).val 1
        "Temperature_imputed" = some 1 := by
  refine ⟨?_, ?_⟩ <;>
    norm_num +decide [impute_missing_values, gapTable, sortTable, sortRows, sortBy, insertBy, rowLE,
      dataColumns, strEndsWith, leadMatch, processColumn, countMissing, initFlags,
      Table.setCol, Table.setColWhere, Row.set, Row.get, setCellList, getCellList,
      stationsToImpute, stationsOf, dedupFirst, stationMissingPct, tier1, tier2, tier3,
      tier3Rain, tier3Gust, tier3Rh, rhStep, fillStation, writeBack, interpolateTime, interpOne,
      prevValid, nextValid, valAt, ffillL, ffillAux, bfillL, persistenceVars,
      boundsStage, outOfBounds, Table.mapRows, Table.withRows, Table.val, valR,
      defaultConfig, List.filter, List.foldl, List.range, List.map, List.findIdx?]

/-- C2 counterexample: after imputation of `wdTable` the skipped station's
missing Wind Direction record carries the tag `Interpolated` (1) while its
value is still missing, and no bounds check applies to Wind Direction —
refuting "a tag other than Original implies the value is non-missing
except where invalidated by a bounds check". -/
theorem skipped_station_tag_without_value :
    (impute_missing_values defaultConfig (fun q => q) wdTable).val 1
        "Wind Direction_imputed" = some 1 ∧
      (impute_missing_values defaultConfig (fun q => q) wdTable).val 1
        "Wind Direction" = none := by
  refine ⟨?_, ?_⟩ <;>
    norm_num +decide [impute_missing_values, wdTable, sortTable, sortRows, sortBy, insertBy, rowLE,
      dataColumns, strEndsWith, leadMatch, processColumn, countMissing, initFlags,
      Table.setCol, Table.setColWhere, Row.set, Row.get, setCellList, getCellList,
      stationsToImpute, stationsOf, dedupFirst, stationMissingPct, tier1, tier2, tier3,
      tier3Rain, tier3Gust, tier3Rh, rhStep, fillStation, writeBack, interpolateTime, interpOne,
      prevValid, nextValid, valAt, ffillL, ffillAux, bfillL, persistenceVars,
      boundsStage, outOfBounds, Table.mapRows, Table.withRows, Table.val, valR,
      defaultConfig, List.filter, List.foldl, List.range, List.map, List.findIdx?]

/-- C2 witness: the amended invariant applied at `wdTable`. -/
theorem impute_flag_sound_witness :
    (sortTable wdTable).val 1 "Wind Direction" = none := by
  apply impute_flag_sound defaultConfig (fun q => q) wdTable "Wind Direction"
    (by decide) (by decide) ?_ 1 1 ?_ one_ne_zero
  · intro i
    rcases i with _ | i
    · decide
    rcases i with _ | i
    · decide
    · apply valR_of_get?_none
      apply List.getElem?_eq_none
      show (sortRows wdTable.rows).length ≤ i + 2
      have : (sortRows wdTable.rows).length = 2 := by decide
      omega
  · norm_num +decide [impute_missing_values, wdTable, sortTable, sortRows, sortBy, insertBy, rowLE,
      dataColumns, strEndsWith, leadMatch, processColumn, countMissing, initFlags,
      Table.setCol, Table.setColWhere, Row.set, Row.get, setCellList, getCellList,
      stationsToImpute, stationsOf, dedupFirst, stationMissingPct, tier1, tier2, tier3,
      tier3Rain, tier3Gust, tier3Rh, rhStep, fillStation, writeBack, interpolateTime, interpOne,
      prevValid, nextValid, valAt, ffillL, ffillAux, bfillL, persistenceVars,
      boundsStage, outOfBounds, Table.mapRows, Table.withRows, Table.val, valR,
      defaultConfig, List.filter, List.foldl, List.range, List.map, List.findIdx?]

/-! ### Skip-station frame: tiers 1–3 never touch a skipped station -/

theorem filter_cons_true {α : Type} (p : α → Bool) (a : α) (l : List α)
    (h : p a = true) : (a :: l).filter p = a :: l.filter p := by
  simp [List.filter, h]

theorem filter_cons_false {α : Type} (p : α → Bool) (a : α) (l : List α)
    (h : ¬ p a = true) : (a :: l).filter p = l.filter p := by
  simp [List.filter, h]

/-- Two record lists agreeing pointwise in station and in one column agree
in that column's per-station missing statistics. -/
theorem filter_agree (c s : String) : ∀ (rs us : List Row),
    (∀ i, stationAt us i = stationAt rs i) → (∀ i, valR us i c = valR rs i c) →
    (us.filter fun r => r.station == s).length = (rs.filter fun r => r.station == s).length ∧
      countMissing c (us.filter fun r => r.station == s)
        = countMissing c (rs.filter fun r => r.station == s) := by
  intro rs
  induction rs with
  | nil =>
    intro us hst _
    cases us with
    | nil => exact ⟨rfl, rfl⟩
    | cons u us' =>
      have := hst 0
      simp [stationAt] at this
  | cons r rs' ih =>
    intro us hst hval
    cases us with
    | nil =>
      have := hst 0
      simp [stationAt] at this
    | cons u us' =>
      have hst0 : u.station = r.station := by
        have := hst 0
        simpa [stationAt] using this
      have hval0 : u.get c = r.get c := by
        have := hval 0
        simpa [valR] using this
      have htail := ih us' (fun i => by simpa [stationAt] using hst (i + 1))
        (fun i => by simpa [valR] using hval (i + 1))
      by_cases hkeep : (r.station == s) = true
      · have hkeepu : (u.station == s) = true := by rw [hst0]; exact hkeep
        rw [filter_cons_true _ u us' hkeepu, filter_cons_true _ r rs' hkeep]
        constructor
        · simp [htail.1]
        · unfold countMissing
          have h2 := htail.2
          unfold countMissing at h2
          by_cases hm : (u.get c).isNone = true
          · have hmr : (r.get c).isNone = true := hval0 ▸ hm
            rw [filter_cons_true _ u _ hm, filter_cons_true _ r _ hmr,
              List.length_cons, List.length_cons, h2]
          · have hmr : ¬ (r.get c).isNone = true := hval0 ▸ hm
            rw [filter_cons_false _ u _ hm, filter_cons_false _ r _ hmr]
            exact h2
      · have hkeepu : ¬ (u.station == s) = true := by rw [hst0]; exact hkeep
        rw [filter_cons_false _ u us' hkeepu, filter_cons_false _ r rs' hkeep]
        exact htail

theorem pct_agree (t u : Table) (c s : String)
    (hst : ∀ i, stationAt u.rows i = stationAt t.rows i)
    (hval : ∀ i, valR u.rows i c = valR t.rows i c) :
    stationMissingPct u c s = stationMissingPct t c s := by
  obtain ⟨hlen, hcount⟩ := filter_agree c s t.rows u.rows hst hval
  simp only [stationMissingPct]
  rw [hlen, hcount]

theorem mem_stationsToImpute {cfg : Config} {t : Table} {col s : String}
    (h : s ∈ stationsToImpute cfg t col) :
    stationMissingPct t col s < cfg.thresholdPct := by
  have := List.of_mem_filter h
  simpa using this

theorem tier3_skip (e : ℚ → ℚ) (col fc : String) (stas : List String) (t : Table)
    (i : ℕ) (st : String) (hst : stationAt t.rows i = some st) (hmem : st ∉ stas) :
    (tier3 e col fc stas t).val i col = t.val i col := by
  unfold tier3
  split
  · unfold tier3Rain
    refine foldlMap_skip _ col (fun s r => ?_) (fun s r hr => ?_) stas t i st hst hmem
    · by_cases hcond : (r.station == s && (r.get col).isNone) = true <;>
        simp [hcond, Row.station_set]
    · have : (r.station == s) = false := by simpa using hr
      simp [this]
  split
  · unfold tier3Gust
    split
    · refine foldlMap_skip _ col (fun s r => ?_) (fun s r hr => ?_) stas t i st hst hmem
      · by_cases hcond :
          (r.station == s && (r.get col).isNone && (r.get "Wind Speed").isSome) = true <;>
          simp [hcond, Row.station_set]
      · have : (r.station == s) = false := by simpa using hr
        simp [this]
    · rfl
  split
  · unfold tier3Rh
    split
    · refine foldlMap_skip _ col (fun s r => ?_) (fun s r hr => ?_) stas t i st hst hmem
      · unfold rhStep
        by_cases hcond : (r.station == s && (r.get col).isNone
            && (r.get "Temperature").isSome && (r.get "Dew").isSome) = true <;>
          simp [hcond, Row.station_set]
      · have : (r.station == s) = false := by simpa using hr
        simp [rhStep, this]
    · rfl
  · rfl

/-- The pointwise effect of the bounds-validation stage on the processed
column. -/
def boundsValue (cfg : Config) (col : String) (v : Option ℚ) : Option ℚ :=
  if col = "Temperature" then (if outOfBounds cfg.tempMin cfg.tempMax v then none else v)
  else if col = "Rh" then v.map fun x => min (max x cfg.rhMin) cfg.rhMax
  else if col = "Dew" then (if outOfBounds cfg.dewMin cfg.dewMax v then none else v)
  else v

theorem boundsStage_val (cfg : Config) (col fc : String) (hfc : fc ≠ col) (t : Table)
    (i : ℕ) : (boundsStage cfg col fc t).val i col = boundsValue cfg col (t.val i col) := by
  rcases hr : t.rows[i]? with _ | r
  · have hnone : t.val i col = none := valR_of_get?_none hr col
    have hleft : (boundsStage cfg col fc t).val i col = none := by
      unfold boundsStage
      split
      · exact valR_map_of_get?_none hr
      split
      · exact valR_map_of_get?_none hr
      split
      · exact valR_map_of_get?_none hr
      · exact hnone
    rw [hleft, hnone]
    unfold boundsValue
    split
    · simp [outOfBounds]
    split
    · rfl
    split
    · simp [outOfBounds]
    · rfl
  · have hval : t.val i col = r.get col := valR_of_get? hr col
    unfold boundsStage boundsValue
    split
    · rw [show ∀ u : Table, ∀ g, (u.mapRows g).val i col = valR (u.rows.map g) i col from
        fun _ _ => rfl, valR_map_of_get? _ hr, hval]
      by_cases hcond : outOfBounds cfg.tempMin cfg.tempMax (r.get col) = true <;>
        simp [hcond, Row.get_set_same]
    split
    · rw [show ∀ u : Table, ∀ g, (u.mapRows g).val i col = valR (u.rows.map g) i col from
        fun _ _ => rfl, valR_map_of_get? _ hr, hval]
      cases hget : r.get col <;> simp [hget, Row.get_set_same]
    split
    · rw [show ∀ u : Table, ∀ g, (u.mapRows g).val i col = valR (u.rows.map g) i col from
        fun _ _ => rfl, valR_map_of_get? _ hr, hval]
      by_cases hcond : outOfBounds cfg.dewMin cfg.dewMax (r.get col) = true <;>
        simp [hcond, Row.get_set_same, Row.get_set_other _ _ _ _ hfc]
    · rw [hval]

/-- `countMissing` over a filtered sub-list is at most the full count. -/
theorem countMissing_filter_le (c : String) (p : Row → Bool) (rows : List Row) :
    countMissing c (rows.filter p) ≤ countMissing c rows := by
  unfold countMissing
  exact List.Sublist.length_le (List.Sublist.filter _ (List.filter_sublist rows))

/-- A station at or above a positive threshold forces the column to have a
missing value. -/
theorem countMissing_pos_of_pct (cfg : Config) (t : Table) (col s : String)
    (hthr : 0 < cfg.thresholdPct)
    (hpct : cfg.thresholdPct ≤ stationMissingPct t col s) :
    countMissing col t.rows ≠ 0 := by
  intro hzero
  have hsub : countMissing col (t.rows.filter fun r => r.station == s) = 0 :=
    Nat.le_zero.mp (hzero ▸ countMissing_filter_le col _ t.rows)
  simp only [stationMissingPct] at hpct
  rw [hsub] at hpct
  split at hpct
  · exact absurd (lt_of_lt_of_le hthr hpct) (lt_irrefl 0)
  · simp at hpct
    exact absurd (lt_of_lt_of_le hthr hpct) (lt_irrefl 0)

/-- Processing one column leaves a skipped station's values untouched by
tiers 1–3; only the bounds stage acts on them. -/
theorem processColumn_skip (cfg : Config) (e : ℚ → ℚ) (t : Table) (col : String)
    (hthr : 0 < cfg.thresholdPct) (i : ℕ) (st : String)
    (hst : stationAt t.rows i = some st)
    (hpct : cfg.thresholdPct ≤ stationMissingPct t col st) :
    (processColumn cfg e t col).val i col = boundsValue cfg col (t.val i col) := by
  have hfc_ne : col ++ "_imputed" ≠ col := Ne.symm (self_ne_flag col)
  unfold processColumn
  split
  · exact absurd (by assumption) (countMissing_pos_of_pct cfg t col st hthr hpct)
  · have hstations : ∀ j, stationAt (initFlags col (col ++ "_imputed") t).rows j
        = stationAt t.rows j := fun j => initFlags_station col _ t j
    have hvals : ∀ j, valR (initFlags col (col ++ "_imputed") t).rows j col
        = valR t.rows j col := fun j =>
      initFlags_val_other col (col ++ "_imputed") t col (self_ne_flag col) j
    have hpct1 : cfg.thresholdPct ≤
        stationMissingPct (initFlags col (col ++ "_imputed") t) col st := by
      rw [pct_agree t _ col st hstations hvals]
      exact hpct
    have hnotmem : st ∉ stationsToImpute cfg (initFlags col (col ++ "_imputed") t) col := by
      intro hmem
      exact absurd (mem_stationsToImpute hmem) (not_lt.mpr hpct1)
    have hst1 : stationAt (initFlags col (col ++ "_imputed") t).rows i = some st := by
      rw [hstations]; exact hst
    have hst2 : stationAt (tier1 cfg col
        (stationsToImpute cfg (initFlags col (col ++ "_imputed") t) col)
        (initFlags col (col ++ "_imputed") t)).rows i = some st := by
      rw [tier1_station]; exact hst1
    have hst3 : stationAt (tier2 cfg col (col ++ "_imputed")
        (stationsToImpute cfg (initFlags col (col ++ "_imputed") t) col)
        (tier1 cfg col (stationsToImpute cfg (initFlags col (col ++ "_imputed") t) col)
          (initFlags col (col ++ "_imputed") t))).rows i = some st := by
      rw [tier2_station]; exact hst2
    rw [boundsStage_val cfg col (col ++ "_imputed") hfc_ne _ i]
    rw [tier3_skip e col (col ++ "_imputed") _ _ i st hst3 hnotmem]
    rw [tier2_skip cfg col (col ++ "_imputed") (self_ne_flag col) _ _ i st hst2 hnotmem]
    rw [tier1_skip cfg col _ _ i st hst1 hnotmem]
    rw [show (initFlags col (col ++ "_imputed") t).val i col = valR (initFlags col
      (col ++ "_imputed") t).rows i col from rfl, hvals i]
    rfl

/-- C3: a station at or above the missing threshold for a variable is
skipped: no tier 1–3 transformation changes any of its values for that
variable; the final value is exactly the bounds-validation image of the
original value (so bounds checking may still alter it, and its
missingness is untouched by tiers 1–3 since `boundsValue` maps missing to
missing). -/
theorem impute_skip_station (cfg : Config) (e : ℚ → ℚ) (df : Table) (c : String)
    (hnd : df.cols.Nodup) (hc : c ∈ dataColumns (sortTable df))
    (hthr : 0 < cfg.thresholdPct) (i : ℕ) (st : String)
    (hst : stationAt (sortTable df).rows i = some st)
    (hpct : cfg.thresholdPct ≤ stationMissingPct (sortTable df) c st) :
    (impute_missing_values cfg e df).val i c
      = boundsValue cfg c ((sortTable df).val i c) := by
  have hsuf : strEndsWith c "_imputed" = false := by
    have := List.of_mem_filter hc
    simpa using this
  obtain ⟨l1, l2, hsplit⟩ := List.append_of_mem hc
  have hndData : (dataColumns (sortTable df)).Nodup := by
    have : (sortTable df).cols = df.cols := rfl
    exact List.Nodup.filter _ (this ▸ hnd)
  rw [hsplit] at hndData
  have hc_not_l1 : c ∉ l1 := by
    rcases List.nodup_append.mp hndData with ⟨_, _, hdisj⟩
    intro hmem
    exact hdisj hmem (List.mem_cons_self c l2)
  have hc_not_l2 : c ∉ l2 := by
    rcases List.nodup_append.mp hndData with ⟨_, hnd2, _⟩
    exact (List.nodup_cons.mp hnd2).1
  have hframe_c_l1 : ∀ x ∈ l1, c ≠ x ∧ c ≠ x ++ "_imputed" := by
    intro x hx
    exact ⟨fun hE => hc_not_l1 (hE ▸ hx), fun hE => flag_ne_of_dataCol hsuf x hE.symm⟩
  have hframe_c_l2 : ∀ x ∈ l2, c ≠ x ∧ c ≠ x ++ "_imputed" := by
    intro x hx
    exact ⟨fun hE => hc_not_l2 (hE ▸ hx), fun hE => flag_ne_of_dataCol hsuf x hE.symm⟩
  have himpute : impute_missing_values cfg e df =
      l2.foldl (processColumn cfg e)
        (processColumn cfg e (l1.foldl (processColumn cfg e) (sortTable df)) c) := by
    show (dataColumns (sortTable df)).foldl (processColumn cfg e) (sortTable df) = _
    rw [hsplit, List.foldl_append, List.foldl_cons]
  have hstpre : ∀ j, stationAt (l1.foldl (processColumn cfg e) (sortTable df)).rows j
      = stationAt (sortTable df).rows j := fun j => foldlCols_station cfg e l1 _ j
  have hvalpre : ∀ j, valR (l1.foldl (processColumn cfg e) (sortTable df)).rows j c
      = valR (sortTable df).rows j c := by
    intro j
    exact foldlCols_val_other cfg e c l1 (sortTable df) hframe_c_l1 j
  have hpctpre : cfg.thresholdPct ≤
      stationMissingPct (l1.foldl (processColumn cfg e) (sortTable df)) c st := by
    rw [pct_agree (sortTable df) _ c st hstpre hvalpre]
    exact hpct
  rw [himpute]
  rw [foldlCols_val_other cfg e c l2 _ hframe_c_l2 i]
  rw [processColumn_skip cfg e _ c hthr i st (by rw [hstpre i]; exact hst) hpctpre]
  rw [show (l1.foldl (processColumn cfg e) (sortTable df)).val i c =
    valR (l1.foldl (processColumn cfg e) (sortTable df)).rows i c from rfl, hvalpre i]
  rfl

/-- Station B: 1 of 2 Temperature values missing (50% ≥ 25%, skipped); the
present value 100 °C is out of bounds. -/
def skipTable : Table :=
  Table.mk ["Temperature"]
    [Row.mk "B" 0 [("Temperature", some 100)],
     Row.mk "B" 3600 [("Temperature", none)]]

/-- C3 witness: on `skipTable` the tiers leave station B untouched and the
bounds check nulls the out-of-range 100 °C. -/
theorem impute_skip_station_witness :
    (impute_missing_values defaultConfig (fun q => q) skipTable).val 0 "Temperature"
      = none := by
  have h := impute_skip_station defaultConfig (fun q => q) skipTable "Temperature"
    (by decide) (by decide) (by norm_num [defaultConfig]) 0 "B" (by decide) ?_
  · rw [h]
    norm_num +decide [sortTable, sortRows, sortBy, insertBy, rowLE, skipTable,
      Table.val, valR, Row.get, getCellList, boundsValue, outOfBounds, defaultConfig]
  · norm_num +decide [stationMissingPct, countMissing, sortTable, sortRows, sortBy,
      insertBy, rowLE, skipTable, Row.get, getCellList, defaultConfig, List.filter]

/-- C5: the bounds-validation asymmetry.  An out-of-range Temperature
value is set to missing while its provenance tag is untouched; an
out-of-range Dew value is set to missing and its tag is forced back to
Original (0), whatever tag it carried. -/
theorem bounds_asymmetry (cfg : Config) (t : Table) (i : ℕ) (r : Row)
    (hr : t.rows[i]? = some r) :
    (∀ fc, fc ≠ "Temperature" →
      outOfBounds cfg.tempMin cfg.tempMax (r.get "Temperature") = true →
      (boundsStage cfg "Temperature" fc t).val i "Temperature" = none ∧
        (boundsStage cfg "Temperature" fc t).val i fc = r.get fc) ∧
    (∀ fc, fc ≠ "Dew" →
      outOfBounds cfg.dewMin cfg.dewMax (r.get "Dew") = true →
      (boundsStage cfg "Dew" fc t).val i "Dew" = none ∧
        (boundsStage cfg "Dew" fc t).val i fc = some 0) := by
  constructor
  · intro fc hfc hout
    unfold boundsStage
    rw [if_pos rfl]
    constructor
    · rw [show ∀ u : Table, ∀ g, (u.mapRows g).val i "Temperature"
        = valR (u.rows.map g) i "Temperature" from fun _ _ => rfl, valR_map_of_get? _ hr]
      simp [hout, Row.get_set_same]
    · rw [show ∀ u : Table, ∀ g, (u.mapRows g).val i fc
        = valR (u.rows.map g) i fc from fun _ _ => rfl, valR_map_of_get? _ hr]
      simp [hout, Row.get_set_other _ _ _ _ (Ne.symm hfc)]
  · intro fc hfc hout
    unfold boundsStage
    rw [if_neg (by decide), if_neg (by decide), if_pos rfl]
    constructor
    · rw [show ∀ u : Table, ∀ g, (u.mapRows g).val i "Dew"
        = valR (u.rows.map g) i "Dew" from fun _ _ => rfl, valR_map_of_get? _ hr]
      simp [hout, Row.get_set_same, Row.get_set_other _ _ _ _ hfc]
    · rw [show ∀ u : Table, ∀ g, (u.mapRows g).val i fc
        = valR (u.rows.map g) i fc from fun _ _ => rfl, valR_map_of_get? _ hr]
      simp [hout, Row.get_set_same]

/-- One record with out-of-range Temperature (50 °C, tag 2) and Dew
(60 °C, tag 3). -/
def boundsTable : Table :=
  Table.mk ["Temperature", "Dew", "Temperature_imputed", "Dew_imputed"]
    [Row.mk "A" 0 [("Temperature", some 50), ("Dew", some 60),
      ("Temperature_imputed", some 2), ("Dew_imputed", some 3)]]

/-- C5 witness: Temperature is nulled keeping tag 2; Dew is nulled and its
tag reset to 0. -/
theorem bounds_asymmetry_witness :
    (boundsStage defaultConfig "Temperature" "Temperature_imputed" boundsTable).val 0
        "Temperature" = none ∧
      (boundsStage defaultConfig "Temperature" "Temperature_imputed" boundsTable).val 0
        "Temperature_imputed" = some 2 ∧
      (boundsStage defaultConfig "Dew" "Dew_imputed" boundsTable).val 0 "Dew" = none ∧
      (boundsStage defaultConfig "Dew" "Dew_imputed" boundsTable).val 0 "Dew_imputed"
        = some 0 := by
  have h := bounds_asymmetry defaultConfig boundsTable 0
    (Row.mk "A" 0 [("Temperature", some 50), ("Dew", some 60),
      ("Temperature_imputed", some 2), ("Dew_imputed", some 3)]) rfl
  have hT := h.1 "Temperature_imputed" (by decide)
    (by norm_num [Row.get, getCellList, outOfBounds, defaultConfig])
  have hD := h.2 "Dew_imputed" (by decide)
    (by norm_num +decide [Row.get, getCellList, outOfBounds, defaultConfig])
  refine ⟨hT.1, ?_, hD.1, hD.2⟩
  rw [hT.2]
  rfl

/-- Rows of a `mapRows` fold are untouched at an index whose station is in
none of the processed stations. -/
theorem foldlMap_get?_skip (G : String → Row → Row)
    (hGskip : ∀ s r, r.station ≠ s → G s r = r) :
    ∀ (stas : List String) (t : Table) (i : ℕ) (r : Row),
    t.rows[i]? = some r → (∀ s ∈ stas, r.station ≠ s) →
    (stas.foldl (fun tb s => tb.mapRows (G s)) t).rows[i]? = some r := by
  intro stas
  induction stas with
  | nil => intro t i r hr _; exact hr
  | cons s rest ih =>
    intro t i r hr hall
    rw [List.foldl_cons]
    refine ih _ i r ?_ (fun x hx => hall x (List.mem_cons_of_mem s hx))
    show (t.rows.map (G s))[i]? = some r
    rw [List.getElem?_map, hr]
    simp [hGskip s r (hall s (List.mem_cons_self s rest))]

/-- C4: at a record of an impute station where Rh is missing and both
Temperature and Dew are present, Tier 3 writes the Magnus-derived Rh
(clipped into [0,100]) and the tag `Derived` (3); a derivation that fails
(zero denominator, the only arithmetic failure in the exact model) yields
a missing value rather than a value, and the derivation never fails for
any other reason. -/
theorem tier3Rh_derives (e : ℚ → ℚ) (stas : List String) (t : Table) (i : ℕ) (r : Row)
    (tv dv : ℚ) (hnd : stas.Nodup) (hr : t.rows[i]? = some r)
    (hT : "Temperature" ∈ t.cols) (hD : "Dew" ∈ t.cols) (hmem : r.station ∈ stas)
    (hrh : r.get "Rh" = none) (htv : r.get "Temperature" = some tv)
    (hdv : r.get "Dew" = some dv) :
    (tier3Rh e "Rh" "Rh_imputed" stas t).val i "Rh" = calculate_rh_from_temp_dew e tv dv ∧
      (tier3Rh e "Rh" "Rh_imputed" stas t).val i "Rh_imputed" = some 3 ∧
      (∀ q, calculate_rh_from_temp_dew e tv dv = some q → 0 ≤ q ∧ q ≤ 100) ∧
      (calculate_rh_from_temp_dew e tv dv = none ↔
        (243.04 : ℚ) + dv = 0 ∨ (243.04 : ℚ) + tv = 0) := by
  have hclip : ∀ q, calculate_rh_from_temp_dew e tv dv = some q → 0 ≤ q ∧ q ≤ 100 := by
    intro q hq
    simp only [calculate_rh_from_temp_dew] at hq
    split at hq
    · exact Option.noConfusion hq
    · have := Option.some_injective ℚ hq
      rw [← this]
      constructor
      · exact le_min (le_max_right _ 0) (by norm_num)
      · exact min_le_right _ 100
  have hdom : calculate_rh_from_temp_dew e tv dv = none ↔
      (243.04 : ℚ) + dv = 0 ∨ (243.04 : ℚ) + tv = 0 := by
    simp only [calculate_rh_from_temp_dew]
    constructor
    · intro hq
      split at hq
      · assumption
      · exact Option.noConfusion hq
    · intro hq
      rw [if_pos hq]
  obtain ⟨l1, l2, hsplit⟩ := List.append_of_mem hmem
  rw [hsplit] at hnd
  have hst_not_l1 : r.station ∉ l1 := by
    rcases List.nodup_append.mp hnd with ⟨_, _, hdisj⟩
    intro hx
    exact hdisj hx (List.mem_cons_self _ l2)
  have hst_not_l2 : r.station ∉ l2 := by
    rcases List.nodup_append.mp hnd with ⟨_, hnd2, _⟩
    exact (List.nodup_cons.mp hnd2).1
  have hG : ∀ s (r' : Row), r'.station ≠ s → rhStep e "Rh" "Rh_imputed" s r' = r' := by
    intro s r' hne
    have : (r'.station == s) = false := by simpa using hne
    simp [rhStep, this]
  unfold tier3Rh
  rw [if_pos ⟨hT, hD⟩, hsplit, List.foldl_append, List.foldl_cons]
  have h1 := foldlMap_get?_skip (rhStep e "Rh" "Rh_imputed") hG l1 t i r hr
    (fun s hs hE => hst_not_l1 (hE ▸ hs))
  have hcond : (r.station == r.station && (r.get "Rh").isNone
      && (r.get "Temperature").isSome && (r.get "Dew").isSome) = true := by
    simp [hrh, htv, hdv]
  have hstepped : rhStep e "Rh" "Rh_imputed" r.station r
      = (r.set "Rh_imputed" (some 3)).set "Rh" (calculate_rh_from_temp_dew e tv dv) := by
    unfold rhStep
    rw [if_pos hcond, htv, hdv]
  have h2 : ((l1.foldl (fun tb s => tb.mapRows (rhStep e "Rh" "Rh_imputed" s)) t).mapRows
      (rhStep e "Rh" "Rh_imputed" r.station)).rows[i]?
      = some ((r.set "Rh_imputed" (some 3)).set "Rh" (calculate_rh_from_temp_dew e tv dv)) := by
    show ((l1.foldl (fun tb s => tb.mapRows (rhStep e "Rh" "Rh_imputed" s)) t).rows.map
      (rhStep e "Rh" "Rh_imputed" r.station))[i]? = _
    rw [List.getElem?_map, h1]
    show some (rhStep e "Rh" "Rh_imputed" r.station r) = _
    rw [hstepped]
  have h3 := foldlMap_get?_skip (rhStep e "Rh" "Rh_imputed") hG l2 _ i _ h2
    (fun s hs hE => hst_not_l2 (by
      have : r.station = s := hE
      exact this ▸ hs))
  refine ⟨?_, ?_, hclip, hdom⟩
  · rw [show ∀ u : Table, u.val i "Rh" = valR u.rows i "Rh" from fun _ => rfl,
      valR_of_get? h3]
    exact Row.get_set_same _ _ _
  · rw [show ∀ u : Table, u.val i "Rh_imputed" = valR u.rows i "Rh_imputed" from
      fun _ => rfl, valR_of_get? h3]
    rw [Row.get_set_other _ _ _ _ (by decide)]
    exact Row.get_set_same _ _ _

/-- One impute-station record with Rh missing and Temperature/Dew
present. -/
def rhTable : Table :=
  Table.mk ["Temperature", "Dew", "Rh"]
    [Row.mk "A" 0 [("Temperature", some 20), ("Dew", some 10), ("Rh", none)]]

/-- C4 witness: the derivation fires on `rhTable` and tags the record
`Derived`. -/
theorem tier3Rh_derives_witness :
    (tier3Rh (fun q => q) "Rh" "Rh_imputed" ["A"] rhTable).val 0 "Rh_imputed"
      = some 3 :=
  (tier3Rh_derives (fun q => q) ["A"] rhTable 0
    (Row.mk "A" 0 [("Temperature", some 20), ("Dew", some 10), ("Rh", none)])
    20 10 (by decide) rfl (by decide) (by decide) (by decide) rfl rfl rfl).2.1

/-! ### Aggregator input mutation (C6) and the hourly window (C7) -/

/-- A concrete stand-in for the wind-direction aggregation function. -/
def circZero : List ℚ → Option ℚ := fun _ => none

def aggTable : Table :=
  Table.mk ["Temperature"] [Row.mk "A" 600 [("Temperature", some 1)]]

theorem setCol_cols (t : Table) (c : String) (f : Row → Option ℚ) :
    (t.setCol c f).cols = if c ∈ t.cols then t.cols else t.cols ++ [c] := rfl

theorem hourly_fst (circ : List ℚ → Option ℚ) (df : Table) :
    (create_hourly_aggregates circ df).1 = hourlyMutated df := rfl

theorem daily_fst (circ : List ℚ → Option ℚ) (df : Table) :
    (create_daily_aggregates circ df).1 = dailyMutated df := by
  unfold create_daily_aggregates
  dsimp only
  split <;> rfl

/-- C6 counterexample: each aggregator hands back an *input* frame that
differs from the table it was given — `create_hourly_aggregates` has added
the columns `hour_label` and `minutes_from_hour` to it and
`create_daily_aggregates` has added `date_label`. -/
theorem aggregators_mutate_input :
    (create_hourly_aggregates circZero aggTable).1 ≠ aggTable ∧
      (create_daily_aggregates circZero aggTable).1 ≠ aggTable := by
  constructor
  · intro h
    have hc : (create_hourly_aggregates circZero aggTable).1.cols ≠ aggTable.cols := by
      rw [hourly_fst]
      decide
    exact hc (congrArg Table.cols h)
  · intro h
    have hc : (create_daily_aggregates circZero aggTable).1.cols ≠ aggTable.cols := by
      rw [daily_fst]
      decide
    exact hc (congrArg Table.cols h)

/-- C6 amended: the aggregators do mutate the frame passed in, but only by
appending the helper columns (`hour_label`, `minutes_from_hour` for the
hourly aggregator, `date_label` for the daily one); every original
column's values, and every record's station and timestamp, are unchanged,
and the aggregate itself is a separate new table. -/
theorem aggregators_mutate_only_helpers (circ : List ℚ → Option ℚ) (df : Table)
    (h1 : "hour_label" ∉ df.cols) (h2 : "minutes_from_hour" ∉ df.cols)
    (h3 : "date_label" ∉ df.cols) :
    (create_hourly_aggregates circ df).1.cols
        = df.cols ++ ["hour_label", "minutes_from_hour"] ∧
      (create_daily_aggregates circ df).1.cols = df.cols ++ ["date_label"] ∧
      (∀ c ∈ df.cols, ∀ i, (create_hourly_aggregates circ df).1.val i c = df.val i c) ∧
      (∀ i, stationAt (create_hourly_aggregates circ df).1.rows i = stationAt df.rows i) ∧
      (∀ c ∈ df.cols, ∀ i, (create_daily_aggregates circ df).1.val i c = df.val i c) ∧
      (∀ i, stationAt (create_daily_aggregates circ df).1.rows i = stationAt df.rows i) := by
  have hm1 : "minutes_from_hour" ∉ df.cols ++ ["hour_label"] := by
    intro hmem
    rcases List.mem_append.mp hmem with h | h
    · exact h2 h
    · simp at h
  refine ⟨?_, ?_, ?_, ?_, ?_, ?_⟩
  · rw [hourly_fst]
    unfold hourlyMutated
    rw [setCol_cols, setCol_cols, if_neg h1, if_neg hm1, List.append_assoc]
    rfl
  · rw [daily_fst]
    unfold dailyMutated
    rw [setCol_cols, if_neg h3]
  · intro c hc i
    have hch : c ≠ "hour_label" := fun hE => h1 (hE ▸ hc)
    have hcm : c ≠ "minutes_from_hour" := fun hE => h2 (hE ▸ hc)
    rw [hourly_fst]
    unfold hourlyMutated
    rw [setCol_val_other _ _ _ _ (Ne.symm hcm), setCol_val_other _ _ _ _ (Ne.symm hch)]
  · intro i
    rw [hourly_fst]
    unfold hourlyMutated
    rw [setCol_station, setCol_station]
  · intro c hc i
    have hcd : c ≠ "date_label" := fun hE => h3 (hE ▸ hc)
    rw [daily_fst]
    unfold dailyMutated
    rw [setCol_val_other _ _ _ _ (Ne.symm hcd)]
  · intro i
    rw [daily_fst]
    unfold dailyMutated
    rw [setCol_station]

/-- C6 witness: the amended description applied to `aggTable`. -/
theorem aggregators_mutate_only_helpers_witness :
    (create_hourly_aggregates circZero aggTable).1.cols
      = aggTable.cols ++ ["hour_label", "minutes_from_hour"] :=
  (aggregators_mutate_only_helpers circZero aggTable (by decide) (by decide)
    (by decide)).1

/-- The records of the mutated hourly frame carry
`minutes_from_hour = (t - floor(t)) / 60` and are otherwise the original
records. -/
theorem hourlyMutated_row {df0 : Table} {i : ℕ} {r : Row}
    (hr : (hourlyMutated df0).rows[i]? = some r) :
    r.get "minutes_from_hour" = some (minutesFromHour r.time) := by
  have hrows : (hourlyMutated df0).rows
      = (df0.setCol "hour_label" fun r => some ((hourFloor r.time : ℤ) : ℚ)).rows.map
        (fun r => r.set "minutes_from_hour" (some (minutesFromHour r.time))) := rfl
  rw [hrows] at hr
  rcases hmap : (df0.setCol "hour_label"
      fun r => some ((hourFloor r.time : ℤ) : ℚ)).rows[i]? with _ | r1
  · rw [List.getElem?_map, hmap] at hr
    exact Option.noConfusion hr
  · rw [List.getElem?_map, hmap] at hr
    have hr2 : some (r1.set "minutes_from_hour" (some (minutesFromHour r1.time))) = some r :=
      hr
    have hrEq : r = r1.set "minutes_from_hour" (some (minutesFromHour r1.time)) :=
      (Option.some_injective _ hr2).symm
    rw [hrEq, Row.get_set_same]
    rfl

/-- C7: a source record enters exactly the group of its floor-to-hour
bucket, and does so iff its offset from that bucket's hour mark is within
±30 minutes (boundary included); a record at +31 minutes is a member of no
bucket at all. -/
theorem hourly_window (df0 : Table) (i : ℕ) (r : Row)
    (hr : (hourlyMutated df0).rows[i]? = some r) :
    (r ∈ bucketMembers (hourlyEligible df0) r.station (hourFloor r.time) ↔
      (-(30 : ℚ) ≤ ((r.time - hourFloor r.time : ℤ) : ℚ) / 60 ∧
        ((r.time - hourFloor r.time : ℤ) : ℚ) / 60 ≤ 30)) ∧
      (r.time - hourFloor r.time = 1800 →
        r ∈ bucketMembers (hourlyEligible df0) r.station (hourFloor r.time)) ∧
      (r.time - hourFloor r.time = 1860 →
        ∀ s h, r ∉ bucketMembers (hourlyEligible df0) s h) := by
  have hcell : r.get "minutes_from_hour" = some (minutesFromHour r.time) :=
    hourlyMutated_row hr
  have hwin : inHourWindow r = true ↔
      (-(30 : ℚ) ≤ ((r.time - hourFloor r.time : ℤ) : ℚ) / 60 ∧
        ((r.time - hourFloor r.time : ℤ) : ℚ) / 60 ≤ 30) := by
    unfold inHourWindow
    rw [hcell]
    unfold minutesFromHour
    simp
  have hmemrows : r ∈ (hourlyMutated df0).rows := List.getElem?_mem hr
  have helig : r ∈ hourlyEligible df0 ↔ inHourWindow r = true := by
    unfold hourlyEligible
    rw [List.mem_filter]
    exact ⟨fun h => h.2, fun h => ⟨hmemrows, h⟩⟩
  have hbucket : r ∈ bucketMembers (hourlyEligible df0) r.station (hourFloor r.time) ↔
      r ∈ hourlyEligible df0 := by
    unfold bucketMembers
    rw [List.mem_filter]
    constructor
    · exact fun h => h.1
    · intro h
      refine ⟨h, ?_⟩
      unfold hourKey
      simp
  refine ⟨hbucket.trans (helig.trans hwin), ?_, ?_⟩
  · intro h1800
    rw [hbucket, helig, hwin, h1800]
    norm_num
  · intro h1860 s h hmem
    have : r ∈ hourlyEligible df0 := (List.mem_filter.mp hmem).1
    rw [helig, hwin, h1860] at this
    norm_num at this

def winTable : Table :=
  Table.mk ["Temperature"] [Row.mk "A" 1800 [("Temperature", some 1)]]

def winRow : Row :=
  Row.mk "A" 1800 [("Temperature", some 1), ("hour_label", some 0),
    ("minutes_from_hour", some 30)]

/-- C7 witness: the record at exactly +30 minutes is in its hour-0
bucket. -/
theorem hourly_window_witness :
    winRow ∈ bucketMembers (hourlyEligible winTable) winRow.station
      (hourFloor winRow.time) := by
  have hr : (hourlyMutated winTable).rows[0]? = some winRow := by
    norm_num +decide [hourlyMutated, winTable, winRow, Table.setCol, Row.set,
      setCellList, hourFloor, minutesFromHour, Int.fdiv]
  exact (hourly_window winTable 0 winRow hr).2.1 (by decide)

/-! ### Quality report (C9) and empty-input behaviour (C10) -/

theorem mem_foldr_append {α β : Type} (f : α → List β) :
    ∀ (l : List α) (b : β),
    b ∈ l.foldr (fun a acc => f a ++ acc) [] ↔ ∃ a ∈ l, b ∈ f a := by
  intro l
  induction l with
  | nil => intro b; simp
  | cons a rest ih =>
    intro b
    simp [List.mem_append, ih]

theorem qualityRowFor_column (allCols : List String) (rs : List Row)
    (stationName col : String) :
    (qualityRowFor allCols rs stationName col).column = col := rfl

theorem qualityRowFor_noflag (allCols : List String) (rs : List Row)
    (stationName col : String) (h : (col ++ "_imputed") ∉ allCols) :
    (qualityRowFor allCols rs stationName col).original_data_count
        = (qualityRowFor allCols rs stationName col).total_rows
          - (qualityRowFor allCols rs stationName col).missing_count ∧
      (qualityRowFor allCols rs stationName col).interpolated_count = 0 ∧
      (qualityRowFor allCols rs stationName col).forward_backward_filled_count = 0 ∧
      (qualityRowFor allCols rs stationName col).calculated_count = 0 ∧
      (qualityRowFor allCols rs stationName col).total_imputed_count = 0 := by
  simp [qualityRowFor, h]

/-- C9: when a variable has no provenance column, every quality row for it
(per station and the ALL_STATIONS roll-up) counts every non-missing value
as tier-0 original and reports zero for every imputation counter. -/
theorem quality_no_provenance (df : Table) (col : String) (qr : QualityRow)
    (hflag : (col ++ "_imputed") ∉ df.cols)
    (hmem : qr ∈ create_data_quality_csv df) (hcol : qr.column = col) :
    qr.original_data_count = qr.total_rows - qr.missing_count ∧
      qr.interpolated_count = 0 ∧ qr.forward_backward_filled_count = 0 ∧
      qr.calculated_count = 0 ∧ qr.total_imputed_count = 0 := by
  simp only [create_data_quality_csv] at hmem
  rcases List.mem_append.mp hmem with hpart | hpart
  · rw [mem_foldr_append] at hpart
    obtain ⟨s, _, hin⟩ := hpart
    obtain ⟨c', _, hqr⟩ := List.mem_map.mp hin
    have hc' : c' = col := by
      rw [← hcol, ← hqr, qualityRowFor_column]
    rw [← hqr, hc']
    exact qualityRowFor_noflag _ _ _ _ hflag
  · obtain ⟨c', _, hqr⟩ := List.mem_map.mp hpart
    have hc' : c' = col := by
      rw [← hcol, ← hqr, qualityRowFor_column]
    rw [← hqr, hc']
    exact qualityRowFor_noflag _ _ _ _ hflag

def noFlagTable : Table := Table.mk ["Temperature"] []

/-- C9 witness: the ALL_STATIONS Temperature row of a flag-free table. -/
theorem quality_no_provenance_witness :
    (qualityRowFor noFlagTable.cols noFlagTable.rows "ALL_STATIONS"
        "Temperature").total_imputed_count = 0 := by
  have hmem : qualityRowFor noFlagTable.cols noFlagTable.rows "ALL_STATIONS" "Temperature"
      ∈ create_data_quality_csv noFlagTable := by
    have : create_data_quality_csv noFlagTable
        = [qualityRowFor noFlagTable.cols noFlagTable.rows "ALL_STATIONS" "Temperature"] :=
      rfl
    rw [this]
    exact List.mem_singleton.mpr rfl
  exact (quality_no_provenance noFlagTable "Temperature" _ (by decide) hmem rfl).2.2.2.2

def emptyTable : Table := Table.mk ["Temperature"] []

/-- C10 counterexample: on a zero-row input with its schema intact, the
quality-report stage does *not* yield an empty table — it still emits one
ALL_STATIONS roll-up row per variable column. -/
theorem quality_report_nonempty_on_empty_input :
    create_data_quality_csv emptyTable ≠ [] := by
  intro h
  have hlen : (create_data_quality_csv emptyTable).length = 1 := rfl
  rw [h] at hlen
  exact Nat.noConfusion hlen

/-- C10 amended: on a zero-row input table, imputation returns the table
unchanged, both aggregators produce zero-row outputs (the daily one
provided its aggregation list is non-empty, since `pd.concat([])` raises),
and the quality report consists of ALL_STATIONS rows with zero totals and
no-data statistics — one per variable column — rather than being empty. -/
theorem empty_input_behaviour (cfg : Config) (e : ℚ → ℚ) (circ : List ℚ → Option ℚ)
    (df : Table) (hrows : df.rows = []) :
    impute_missing_values cfg e df = df ∧
      (create_hourly_aggregates circ df).2.rows = [] ∧
      (∀ out, (create_daily_aggregates circ df).2 = some out → out.rows = []) ∧
      (∀ qr ∈ create_data_quality_csv df, qr.station = "ALL_STATIONS" ∧
        qr.total_rows = 0 ∧ qr.missing_count = 0 ∧ qr.total_imputed_count = 0 ∧
        qr.meanStat = none) := by
  have hsort : sortTable df = df := by
    cases df
    simp only [sortTable]
    simp_all [sortRows, sortBy]
  refine ⟨?_, ?_, ?_, ?_⟩
  · show (dataColumns (sortTable df)).foldl (processColumn cfg e) (sortTable df) = df
    rw [hsort]
    have : ∀ (l : List String) (t : Table), t.rows = [] →
        l.foldl (processColumn cfg e) t = t := by
      intro l
      induction l with
      | nil => intro t _; rfl
      | cons c rest ih =>
        intro t ht
        rw [List.foldl_cons]
        have hstep : processColumn cfg e t c = t := by
          unfold processColumn
          rw [if_pos]
          rw [ht]
          rfl
        rw [hstep]
        exact ih t ht
    exact this _ df hrows
  · have helig : hourlyEligible df = [] := by
      unfold hourlyEligible hourlyMutated Table.setCol
      rw [hrows]
      rfl
    simp only [create_hourly_aggregates]
    rw [helig]
    rfl
  · intro out hout
    unfold create_daily_aggregates at hout
    dsimp only at hout
    split at hout
    · exact Option.noConfusion hout
    · have := Option.some_injective _ hout
      rw [← this]
      show (sortBy keyLE (dedupFirst ((dailyMutated df).rows.map dayKey))).map _ = []
      have : (dailyMutated df).rows.map dayKey = [] := by
        unfold dailyMutated Table.setCol
        rw [hrows]
        rfl
      rw [this]
      rfl
  · intro qr hmem
    have hstations : dedupFirst (df.rows.map Row.station) = [] := by
      rw [hrows]
      rfl
    simp only [create_data_quality_csv, hstations] at hmem
    have hfoldr : (sortBy (fun a b : String => decide (a < b) || a == b)
        ([] : List String)).foldr
        (fun s acc => ((df.cols.filter fun c => !(strEndsWith c "_imputed")).map fun c =>
          qualityRowFor df.cols (df.rows.filter fun r => r.station == s) s c) ++ acc) []
        = [] := rfl
    rw [hfoldr] at hmem
    rw [List.nil_append] at hmem
    obtain ⟨c', _, hqr⟩ := List.mem_map.mp hmem
    rw [← hqr]
    have htotal : (qualityRowFor df.cols df.rows "ALL_STATIONS" c').total_rows = 0 := by
      simp [qualityRowFor, hrows]
    refine ⟨rfl, htotal, ?_, ?_, ?_⟩
    · simp [qualityRowFor, hrows, countMissing]
    · simp [qualityRowFor, hrows, countFlag, countMissing]
    · simp [qualityRowFor, hrows, presentVals, aggMean]

/-- C10 witness: the empty-input description applied to `emptyTable`. -/
theorem empty_input_behaviour_witness :
    impute_missing_values defaultConfig (fun q => q) emptyTable = emptyTable :=
  (empty_input_behaviour defaultConfig (fun q => q) circZero emptyTable rfl).1

/-! ### Circular-mean facts (C8) -/

/-- The (unnormalised) resultant vector of the angle set: componentwise
sums of cosines and sines of the radian values.  `circular_mean_degrees`
takes the `arg` of the mean vector, which points the same way. -/
noncomputable def resultant (l : List ℝ) : ℂ :=
  Complex.mk ((l.map fun a => Real.cos (a * (Real.pi / 180))).sum)
    ((l.map fun a => Real.sin (a * (Real.pi / 180))).sum)

theorem list_sum_comb (f g : ℝ → ℝ) (c d : ℝ) : ∀ l : List ℝ,
    (l.map fun a => c * f a + d * g a).sum = c * (l.map f).sum + d * (l.map g).sum := by
  intro l
  induction l with
  | nil => simp
  | cons x xs ih =>
    simp only [List.map_cons, List.sum_cons, ih]
    ring

/-- Shifting every angle by `k` rotates the resultant by `k` (in
radians). -/
theorem resultant_rotate (l : List ℝ) (k : ℝ) :
    resultant (l.map fun a => a + k) =
      Complex.mk (Real.cos (k * (Real.pi / 180))) (Real.sin (k * (Real.pi / 180)))
        * resultant l := by
  apply Complex.ext
  · show ((l.map fun a => a + k).map fun a => Real.cos (a * (Real.pi / 180))).sum = _
    rw [Complex.mul_re]
    show _ = Real.cos (k * (Real.pi / 180)) * (l.map fun a => Real.cos (a * (Real.pi / 180))).sum
      - Real.sin (k * (Real.pi / 180)) * (l.map fun a => Real.sin (a * (Real.pi / 180))).sum
    rw [List.map_map]
    have hfun : ∀ a : ℝ, Real.cos ((a + k) * (Real.pi / 180))
        = Real.cos (k * (Real.pi / 180)) * Real.cos (a * (Real.pi / 180))
          + (-(Real.sin (k * (Real.pi / 180)))) * Real.sin (a * (Real.pi / 180)) := by
      intro a
      have : (a + k) * (Real.pi / 180) = a * (Real.pi / 180) + k * (Real.pi / 180) := by ring
      rw [this, Real.cos_add]
      ring
    calc (l.map ((fun a => Real.cos (a * (Real.pi / 180))) ∘ fun a => a + k)).sum
        = (l.map fun a => Real.cos (k * (Real.pi / 180)) * Real.cos (a * (Real.pi / 180))
            + (-(Real.sin (k * (Real.pi / 180)))) * Real.sin (a * (Real.pi / 180))).sum := by
          apply congrArg
          apply List.map_congr_left
          intro a _
          exact hfun a
      _ = _ := by
          rw [list_sum_comb]
          ring
  · show ((l.map fun a => a + k).map fun a => Real.sin (a * (Real.pi / 180))).sum = _
    rw [Complex.mul_im]
    show _ = Real.cos (k * (Real.pi / 180)) * (l.map fun a => Real.sin (a * (Real.pi / 180))).sum
      + Real.sin (k * (Real.pi / 180)) * (l.map fun a => Real.cos (a * (Real.pi / 180))).sum
    rw [List.map_map]
    have hfun : ∀ a : ℝ, Real.sin ((a + k) * (Real.pi / 180))
        = Real.cos (k * (Real.pi / 180)) * Real.sin (a * (Real.pi / 180))
          + Real.sin (k * (Real.pi / 180)) * Real.cos (a * (Real.pi / 180)) := by
      intro a
      have : (a + k) * (Real.pi / 180) = a * (Real.pi / 180) + k * (Real.pi / 180) := by ring
      rw [this, Real.sin_add]
      ring
    calc (l.map ((fun a => Real.sin (a * (Real.pi / 180))) ∘ fun a => a + k)).sum
        = (l.map fun a => Real.cos (k * (Real.pi / 180)) * Real.sin (a * (Real.pi / 180))
            + Real.sin (k * (Real.pi / 180)) * Real.cos (a * (Real.pi / 180))).sum := by
          apply congrArg
          apply List.map_congr_left
          intro a _
          exact hfun a
      _ = _ := by
          rw [list_sum_comb]

/-- Dividing both components by a positive count does not change the
argument. -/
theorem arg_mean (Cs Ss nR : ℝ) (hn : 0 < nR) :
    Complex.arg (Complex.mk (Cs / nR) (Ss / nR)) = Complex.arg (Complex.mk Cs Ss) := by
  have hmk : Complex.mk (Cs / nR) (Ss / nR) = ((nR⁻¹ : ℝ) : ℂ) * Complex.mk Cs Ss := by
    apply Complex.ext
    · rw [Complex.re_ofReal_mul]
      show Cs / nR = nR⁻¹ * Cs
      rw [div_eq_inv_mul]
    · rw [Complex.im_ofReal_mul]
      show Ss / nR = nR⁻¹ * Ss
      rw [div_eq_inv_mul]
  rw [hmk, Complex.arg_real_mul _ (inv_pos.mpr hn)]

/-- The value returned by `circular_mean_degrees` is the degree argument of
the resultant, possibly normalised by +360. -/
theorem circ_mean_eq (l : List ℝ) (hl : l ≠ []) :
    ∃ ε : ℤ, (ε = 0 ∨ ε = 1) ∧
      circular_mean_degrees l
        = some (Complex.arg (resultant l) * (180 / Real.pi) + 360 * ε) := by
  have hlen : l.length ≠ 0 := by simpa [List.length_eq_zero] using hl
  have hnpos : (0 : ℝ) < (l.length : ℝ) := by
    have := List.length_pos.mpr hl
    exact_mod_cast this
  simp only [circular_mean_degrees]
  rw [if_neg hlen]
  rw [arg_mean _ _ _ hnpos]
  rw [show Complex.mk ((l.map fun a => Real.cos (a * (Real.pi / 180))).sum)
      ((l.map fun a => Real.sin (a * (Real.pi / 180))).sum) = resultant l from rfl]
  by_cases hneg : Complex.arg (resultant l) * (180 / Real.pi) < 0
  · refine ⟨1, Or.inr rfl, ?_⟩
    rw [if_pos]
    · norm_num
    · exact hneg
  · refine ⟨0, Or.inl rfl, ?_⟩
    rw [if_neg hneg]
    norm_num

theorem unit_ne_zero (x : ℝ) : Complex.mk (Real.cos x) (Real.sin x) ≠ 0 := by
  intro h
  have hre : Real.cos x = 0 := by
    have := congrArg Complex.re h
    simpa using this
  have him : Real.sin x = 0 := by
    have := congrArg Complex.im h
    simpa using this
  have hpy := Real.sin_sq_add_cos_sq x
  rw [hre, him] at hpy
  norm_num at hpy

theorem arg_unit_coe_angle (x : ℝ) :
    (Complex.arg (Complex.mk (Real.cos x) (Real.sin x)) : Real.Angle) = (x : Real.Angle) := by
  have h : Complex.mk (Real.cos x) (Real.sin x)
      = (Real.Angle.cos (x : Real.Angle) : ℂ)
        + (Real.Angle.sin (x : Real.Angle) : ℂ) * Complex.I := by
    rw [Real.Angle.cos_coe, Real.Angle.sin_coe]
    apply Complex.ext
    · show Real.cos x = (↑(Real.cos x) + ↑(Real.sin x) * Complex.I).re
      rw [Complex.add_re, Complex.ofReal_re, Complex.mul_re, Complex.ofReal_re,
        Complex.ofReal_im, Complex.I_re, Complex.I_im]
      ring
    · show Real.sin x = (↑(Real.cos x) + ↑(Real.sin x) * Complex.I).im
      rw [Complex.add_im, Complex.ofReal_im, Complex.mul_im, Complex.ofReal_re,
        Complex.ofReal_im, Complex.I_re, Complex.I_im]
      ring
  rw [h]
  exact Complex.arg_cos_add_sin_mul_I_coe_angle (x : Real.Angle)

/-- C8 counterexample: the claimed rotation covariance fails on an
antipodal pair.  `circular_mean({0°,180°}) = 0` (the resultant is zero and
`atan2(0,0) = 0`), and after rotating both angles by 90° the mean is again
0, not 90: no multiple of 360 makes `0 ≡ 0 + 90`. -/
theorem circular_mean_not_rotation_covariant :
    circular_mean_degrees [0, 180] = some 0 ∧
      circular_mean_degrees [0 + 90, 180 + 90] = some 0 ∧
      ¬ ∃ n : ℤ, (0 : ℝ) = 0 + 90 + 360 * n := by
  have hpi := Real.pi_ne_zero
  refine ⟨?_, ?_, ?_⟩
  · simp only [circular_mean_degrees]
    rw [if_neg (by norm_num)]
    have h0 : (0 : ℝ) * (Real.pi / 180) = 0 := by ring
    have h180 : (180 : ℝ) * (Real.pi / 180) = Real.pi := by
      field_simp
    have hsin : ([(0 : ℝ), 180].map fun a => Real.sin (a * (Real.pi / 180))).sum = 0 := by
      simp [h0, h180, Real.sin_pi]
    have hcos : ([(0 : ℝ), 180].map fun a => Real.cos (a * (Real.pi / 180))).sum = 0 := by
      simp [h0, h180, Real.cos_pi]
    rw [hsin, hcos]
    have hmk : Complex.mk ((0 : ℝ) / ([(0 : ℝ), 180].length : ℝ))
        ((0 : ℝ) / ([(0 : ℝ), 180].length : ℝ)) = 0 := by
      apply Complex.ext <;> simp
    rw [hmk, Complex.arg_zero]
    norm_num
  · have hl : [(0 : ℝ) + 90, 180 + 90] = [(90 : ℝ), 270] := by norm_num
    rw [hl]
    simp only [circular_mean_degrees]
    rw [if_neg (by norm_num)]
    have h90 : (90 : ℝ) * (Real.pi / 180) = Real.pi / 2 := by
      field_simp
      ring
    have h270 : (270 : ℝ) * (Real.pi / 180) = Real.pi + Real.pi / 2 := by
      field_simp
      ring
    have hsin : ([(90 : ℝ), 270].map fun a => Real.sin (a * (Real.pi / 180))).sum = 0 := by
      simp only [List.map_cons, List.map_nil, List.sum_cons, List.sum_nil, h90, h270]
      rw [Real.sin_add, Real.sin_pi, Real.cos_pi, Real.sin_pi_div_two]
      ring
    have hcos : ([(90 : ℝ), 270].map fun a => Real.cos (a * (Real.pi / 180))).sum = 0 := by
      simp only [List.map_cons, List.map_nil, List.sum_cons, List.sum_nil, h90, h270]
      rw [Real.cos_add, Real.sin_pi, Real.cos_pi, Real.cos_pi_div_two]
      ring
    rw [hsin, hcos]
    have hmk : Complex.mk ((0 : ℝ) / ([(90 : ℝ), 270].length : ℝ))
        ((0 : ℝ) / ([(90 : ℝ), 270].length : ℝ)) = 0 := by
      apply Complex.ext <;> simp
    rw [hmk, Complex.arg_zero]
    norm_num
  · rintro ⟨n, hn⟩
    have h1 : (360 : ℝ) * (n : ℝ) = -90 := by linarith
    have h2 : ((360 * n : ℤ) : ℝ) = ((-90 : ℤ) : ℝ) := by push_cast; linarith
    have h3 : (360 : ℤ) * n = -90 := Int.cast_injective h2
    omega

/-- C8 (amended): the circular mean of an empty list is no-value;
`circular_mean([350,10]) = 0` exactly; and rotation covariance
`circular_mean(x+k) ≡ circular_mean(x) + k (mod 360)` holds for every
nonempty list whose mean resultant vector is nonzero. -/
theorem circular_mean_spec :
    circular_mean_degrees [] = none ∧
    circular_mean_degrees [350, 10] = some 0 ∧
    ∀ (l : List ℝ) (k : ℝ), l ≠ [] → resultant l ≠ 0 →
      ∃ a b : ℝ, ∃ n : ℤ,
        circular_mean_degrees (l.map fun x => x + k) = some a ∧
        circular_mean_degrees l = some b ∧
        a = b + k + 360 * n := by
  refine ⟨?_, ?_, ?_⟩
  · simp [circular_mean_degrees]
  · simp only [circular_mean_degrees]
    rw [if_neg (by norm_num)]
    have h350 : (350 : ℝ) * (Real.pi / 180) = 2 * Real.pi - 10 * (Real.pi / 180) := by ring
    have hsin : ([(350 : ℝ), 10].map fun a => Real.sin (a * (Real.pi / 180))).sum = 0 := by
      simp only [List.map_cons, List.map_nil, List.sum_cons, List.sum_nil, h350]
      rw [Real.sin_sub, Real.sin_two_pi, Real.cos_two_pi]
      ring
    have hcos : ([(350 : ℝ), 10].map fun a => Real.cos (a * (Real.pi / 180))).sum
        = 2 * Real.cos (10 * (Real.pi / 180)) := by
      simp only [List.map_cons, List.map_nil, List.sum_cons, List.sum_nil, h350]
      rw [Real.cos_sub, Real.sin_two_pi, Real.cos_two_pi]
      ring
    rw [hsin, hcos]
    have hlen : (([(350 : ℝ), 10].length : ℕ) : ℝ) = 2 := by norm_num
    rw [hlen]
    have hz : (0 : ℝ) / 2 = 0 := by norm_num
    have hc : 2 * Real.cos (10 * (Real.pi / 180)) / 2 = Real.cos (10 * (Real.pi / 180)) := by
      ring
    rw [hz, hc]
    have hcpos : 0 < Real.cos (10 * (Real.pi / 180)) := by
      apply Real.cos_pos_of_mem_Ioo
      rw [Set.mem_Ioo]
      constructor <;> linarith [Real.pi_pos]
    have hmk : Complex.mk (Real.cos (10 * (Real.pi / 180))) 0
        = ((Real.cos (10 * (Real.pi / 180)) : ℝ) : ℂ) := by
      apply Complex.ext
      · rw [Complex.ofReal_re]
      · rw [Complex.ofReal_im]
    rw [hmk, Complex.arg_ofReal_of_nonneg hcpos.le, zero_mul]
    norm_num
  · intro l k hl hres
    obtain ⟨ε₂, _, hb⟩ := circ_mean_eq l hl
    have hml : (l.map fun x => x + k) ≠ [] := by
      simpa using hl
    obtain ⟨ε₁, _, ha⟩ := circ_mean_eq (l.map fun x => x + k) hml
    have hune : Complex.mk (Real.cos (k * (Real.pi / 180)))
        (Real.sin (k * (Real.pi / 180))) ≠ 0 := unit_ne_zero _
    have hangle : (Complex.arg (resultant (l.map fun x => x + k)) : Real.Angle)
        = ((k * (Real.pi / 180) + Complex.arg (resultant l) : ℝ) : Real.Angle) := by
      rw [resultant_rotate, Complex.arg_mul_coe_angle hune hres, arg_unit_coe_angle,
        ← Real.Angle.coe_add]
    obtain ⟨m, hm⟩ := Real.Angle.angle_eq_iff_two_pi_dvd_sub.mp hangle
    refine ⟨_, _, m + ε₁ - ε₂, ha, hb, ?_⟩
    have hπ : Real.pi ≠ 0 := Real.pi_ne_zero
    have hmain : Complex.arg (resultant (l.map fun x => x + k)) * (180 / Real.pi)
        = Complex.arg (resultant l) * (180 / Real.pi) + k + 360 * (m : ℝ) := by
      have h1 : Complex.arg (resultant (l.map fun x => x + k))
          = k * (Real.pi / 180) + Complex.arg (resultant l) + 2 * Real.pi * (m : ℝ) := by
        linarith [hm]
      rw [h1]
      field_simp
      ring
    push_cast
    rw [hmain]
    ring

/-- Witness: the covariance branch of the amended theorem at the list
`[0]` shifted by 90 degrees. -/
theorem circular_mean_spec_witness :
    ∃ a b : ℝ, ∃ n : ℤ,
      circular_mean_degrees ([(0 : ℝ)].map fun x => x + 90) = some a ∧
      circular_mean_degrees [(0 : ℝ)] = some b ∧
      a = b + 90 + 360 * n :=
  circular_mean_spec.2.2 [0] 90 (by simp)
    (by
      intro h
      have hre := congrArg Complex.re h
      simp [resultant] at hre)

end ParksWeather
